import Mathlib

/-!
# A verification of the `wal` write-ahead-log library

This file shallowly embeds the segment file format, the segment
write/flush/read machinery, the log orchestrator (rotation) and the
streaming reader of the `wal` repository, and proves or refutes the
specification claims about them.

Bytes are modelled as `Nat` (with `< 256` hypotheses where byte-ness
matters), a segment's on-disk file as a `List Nat` (the file is opened
with `O_APPEND`, so writes always append and reads are pure slices),
and fallible operations return `Except`.
-/

set_option maxRecDepth 10000

namespace Wal

/-- Block size: `32 * KB` in the source. -/
def blockSize : Nat := 32 * 1024

/-- Chunk header size: CRC32 (4) + length (2) + type (1). -/
def chunkHeaderSize : Nat := 7

/-- Chunk type constants (Go `ChunkType` byte values). -/
def kFullType : Nat := 0

def kFirstType : Nat := 1

def kMiddleType : Nat := 2

def kLastType : Nat := 3

/-- The error values surfaced by the library.  The case eof is Go's `io.EOF`
(returned both by a failed block read at end of file and for the
zero-length sentinel chunk); `endOfBlock` is `ErrEndOfBlock`;
`invalidChunkType` stands for the `fmt.Errorf("invalid ... chk type")`
errors; `invalidFormat` is `errors.New("invalid format")` from the
position codec; `hexError` stands for the errors of Go's `encoding/hex`
package; `fuelOut` is an artefact of the fuelled loop embedding and is
never produced by a terminating run. -/
inductive WErr where
  | closed
  | invalidCRC
  | endOfBlock
  | eof
  | invalidChunkType
  | segmentNotFound
  | invalidFormat
  | hexError
  | fuelOut
  deriving DecidableEq, Repr

/-! ## CRC-32 (IEEE), reflected form, as computed by `hash/crc32.ChecksumIEEE` -/

/-- The reflected CRC-32/IEEE polynomial. -/
def crcPoly : Nat := 0xEDB88320

/-- One bit step of the reflected CRC-32 computation. -/
def crcStep (c : Nat) : Nat :=
  if c % 2 = 1 then (c >>> 1) ^^^ crcPoly else c >>> 1

/-- Eight bit steps (one byte's worth). -/
def crcStep8 (c : Nat) : Nat :=
  crcStep (crcStep (crcStep (crcStep (crcStep (crcStep (crcStep (crcStep c)))))))

/-- Absorb one byte into the CRC state. -/
def crcUpdate (c b : Nat) : Nat := crcStep8 (c ^^^ b)

/-- `crc32.ChecksumIEEE`: initial value `0xFFFFFFFF`, final xor `0xFFFFFFFF`. -/
def crc32 (data : List Nat) : Nat :=
  0xFFFFFFFF ^^^ data.foldl crcUpdate 0xFFFFFFFF

/-! ## Little-endian integer codecs (`encoding/binary.LittleEndian`) -/

/-- `PutUint32`: the four little-endian bytes of `n` (truncated to 32 bits). -/
def putUint32LE (n : Nat) : List Nat :=
  [n % 256, n / 256 % 256, n / 65536 % 256, n / 16777216 % 256]

/-- `PutUint16`: the two little-endian bytes of `n` (truncated to 16 bits). -/
def putUint16LE (n : Nat) : List Nat :=
  [n % 256, n / 256 % 256]

/-- `Uint32`: read a little-endian u32 from the first four bytes. -/
def getUint32LE (l : List Nat) : Nat :=
  l.getD 0 0 + 256 * l.getD 1 0 + 65536 * l.getD 2 0 + 16777216 * l.getD 3 0

/-- `Uint16`: read a little-endian u16 from the first two bytes. -/
def getUint16LE (l : List Nat) : Nat :=
  l.getD 0 0 + 256 * l.getD 1 0

/-! ## Positions and their codec -/

/-- `Position` records the position of a chunk: segment file id, block id,
and the chunk's byte offset inside the block. -/
structure Position where
  segmentId : Nat
  blockId : Nat
  offset : Nat
  deriving DecidableEq, Repr

/-- `Position.Encode`: three little-endian u32s in a 12-byte buffer. -/
def Position.Encode (p : Position) : List Nat :=
  putUint32LE p.segmentId ++ putUint32LE p.blockId ++ putUint32LE p.offset

/-- `Position.Decode`: require exactly 12 bytes, else `invalid format`. -/
def Position.Decode (data : List Nat) : Except WErr Position :=
  if data.length = 12 then
    .ok ⟨getUint32LE data, getUint32LE (data.drop 4), getUint32LE (data.drop 8)⟩
  else .error .invalidFormat

/-- One lowercase hex digit (`encoding/hex` encoding alphabet). -/
def hexChar (n : Nat) : Char :=
  if n < 10 then Char.ofNat (48 + n) else Char.ofNat (87 + n)

/-- `hex.EncodeToString` on a byte list. -/
def hexEncode : List Nat → List Char
  | [] => []
  | b :: rest => hexChar (b / 16 % 16) :: hexChar (b % 16) :: hexEncode rest

/-- The value of a hex digit character; `none` if not a hex digit.
Go's `encoding/hex` accepts `0-9`, `a-f` and `A-F`. -/
def hexDigit? (c : Char) : Option Nat :=
  if 48 ≤ c.toNat ∧ c.toNat ≤ 57 then some (c.toNat - 48)
  else if 97 ≤ c.toNat ∧ c.toNat ≤ 102 then some (c.toNat - 87)
  else if 65 ≤ c.toNat ∧ c.toNat ≤ 70 then some (c.toNat - 55)
  else none

/-- `hex.DecodeString`: decode pairs of hex digits; any non-digit or an
odd length is an error of the hex package (modelled as one value). -/
def hexDecode : List Char → Except WErr (List Nat)
  | [] => .ok []
  | [_] => .error .hexError
  | c1 :: c2 :: rest =>
    match hexDigit? c1, hexDigit? c2 with
    | some a, some b =>
      match hexDecode rest with
      | .ok l => .ok ((16 * a + b) :: l)
      | .error e => .error e
    | _, _ => .error .hexError

/-- `Position.EncodeString`: lowercase hex of the 12-byte encoding. -/
def Position.EncodeString (p : Position) : List Char :=
  hexEncode p.Encode

/-- `Position.DecodeString`: hex-decode, then `Decode`. -/
def Position.DecodeString (s : List Char) : Except WErr Position :=
  match hexDecode s with
  | .ok bytes => Position.Decode bytes
  | .error e => .error e

/-! ## Segment -/

/-- The in-memory current block of a segment: its id, buffered bytes,
and the `flushed` watermark (bytes already written to disk). -/
structure CurBlock where
  id : Nat
  data : List Nat
  flushed : Nat
  deriving DecidableEq, Repr

/-- A WAL segment.  `file` is the byte content of the on-disk file
(opened with `O_APPEND`, so writes append and reads are pure slices);
`cachedId`/`cachedData` model the single-slot `cachedBlock` (`cachedId
= none` models the initial `-1` sentinel id; `cachedData` always has
length `blockSize`). -/
structure Segment where
  id : Nat
  file : List Nat
  closed : Bool
  currentBlock : CurBlock
  cachedId : Option Nat
  cachedData : List Nat
  deriving Repr

/-- `NewSegment` on a file whose current content is `file`: compute the
number of whole blocks, load the trailing partial block (if any) into
the current block with `flushed` set to its length, and start with an
empty cache slot. -/
def NewSegment (id : Nat) (file : List Nat) : Segment :=
  let blockCount := file.length / blockSize
  let blockOccupy := file.length % blockSize
  let blockData := if blockOccupy = 0 then [] else file.drop (file.length - blockOccupy)
  { id := id
    file := file
    closed := false
    currentBlock := { id := blockCount, data := blockData, flushed := blockData.length }
    cachedId := none
    cachedData := List.replicate blockSize 0 }

/-- `Segment.Size`, translated verbatim from the source. -/
def Segment.Size (s : Segment) : Nat :=
  if s.currentBlock.flushed = 0 then s.currentBlock.id * blockSize
  else if s.currentBlock.id = 0 then s.currentBlock.flushed
  else (s.currentBlock.id - 1) * blockSize + s.currentBlock.flushed

/-- `Segment.Id`. -/
def Segment.Id (s : Segment) : Nat := s.id

/-- A data chunk: payload and chunk type byte. -/
structure Chunk where
  data : List Nat
  chunkType : Nat
  deriving DecidableEq, Repr

/-- The loop of `splitIntoChunks`: while payload remains, emit chunks of
`min (blockSize - chunkHeaderSize) remaining` payload bytes.  The Go
slice `data[offset : offset+chunkSize]` is `(data.drop offset).take
chunkSize`. -/
def splitLoopF (data : List Nat) : Nat → Nat → Nat → List Chunk
  | _, _, 0 => []
  | offset, remaining, fuel + 1 =>
    if remaining = 0 then []
    else
      ⟨(data.drop offset).take (min (blockSize - chunkHeaderSize) remaining),
          if remaining = data.length ∧
              min (blockSize - chunkHeaderSize) remaining = data.length then kFullType
          else if remaining = data.length then kFirstType
          else if remaining = min (blockSize - chunkHeaderSize) remaining then kLastType
          else kMiddleType⟩ ::
        splitLoopF data (offset + min (blockSize - chunkHeaderSize) remaining)
          (remaining - min (blockSize - chunkHeaderSize) remaining) fuel

/-- The `for remaining > 0` loop terminates because each pass consumes
`chunkSize ≥ 1` payload bytes, so `remaining` passes of fuel always
suffice; the fuel parameter of `splitLoopF` only makes that structural. -/
def splitLoop (data : List Nat) (offset remaining : Nat) : List Chunk :=
  splitLoopF data offset remaining remaining

/-- `Segment.splitIntoChunks`.  The source computes `remainingSpace :=
blockSize - len(currentBlock.data) - chunkHeaderSize` as a signed int
and tests `remainingSpace > 0`, which is equivalent to the guard below;
in the first branch `remaining = len(data)` always holds, so the
first-branch chunk type test `remaining == len(data) && chunkSize ==
len(data)` reduces to `chunkSize = data.length`. -/
def Segment.splitIntoChunks (s : Segment) (data : List Nat) : List Chunk :=
  if s.currentBlock.data.length + chunkHeaderSize < blockSize then
    ⟨data.take (min (blockSize - s.currentBlock.data.length - chunkHeaderSize) data.length),
        if min (blockSize - s.currentBlock.data.length - chunkHeaderSize) data.length
            = data.length then kFullType
        else kFirstType⟩ ::
      splitLoop data
        (min (blockSize - s.currentBlock.data.length - chunkHeaderSize) data.length)
        (data.length
          - min (blockSize - s.currentBlock.data.length - chunkHeaderSize) data.length)
  else
    splitLoop data 0 data.length

/-- `Segment.writeChunk`: append a 7-byte header (CRC of the payload,
little-endian u16 length, type byte) and the payload to the current
block buffer; the returned position records the pre-append offset. -/
def Segment.writeChunk (s : Segment) (data : List Nat) (chunkType : Nat) :
    Position × Segment :=
  let header := putUint32LE (crc32 data) ++ putUint16LE data.length ++ [chunkType]
  let offset := s.currentBlock.data.length
  (⟨s.id, s.currentBlock.id, offset⟩,
    { s with currentBlock := { s.currentBlock with data := s.currentBlock.data ++ header ++ data } })

/-- `Segment.flushBlock`: write `currentBlock.data[flushed:]` to the
file; when `padding` and the buffer is shorter than `blockSize`, first
extend it with zero bytes to `blockSize`.  When the flushed watermark
reaches `blockSize`, roll the current block forward.  The model's disk
write always succeeds and writes everything. -/
def Segment.flushBlock (s : Segment) (padding : Bool) : Segment :=
  let data := s.currentBlock.data.drop s.currentBlock.flushed
  if data.length = 0 ∧ padding = false then s
  else
    let cb :=
      if padding = true ∧ s.currentBlock.data.length < blockSize then
        { s.currentBlock with
            data := s.currentBlock.data ++ List.replicate (blockSize - s.currentBlock.data.length) 0 }
      else s.currentBlock
    let toWrite := cb.data.drop cb.flushed
    let file := s.file ++ toWrite
    let flushed := cb.flushed + toWrite.length
    if flushed = blockSize then
      { s with file := file, currentBlock := { id := cb.id + 1, data := [], flushed := 0 } }
    else
      { s with file := file, currentBlock := { cb with flushed := flushed } }

/-- The loop of `Segment.Write`: for each chunk, flush (with padding)
when the chunk would not fit in the current block, then append it; the
position of the first chunk (`i == 0` in the source) is returned. -/
def Segment.writeLoop (s : Segment) : List Chunk → Option Position → Option Position × Segment
  | [], pos => (pos, s)
  | chk :: rest, pos =>
    let s1 :=
      if blockSize < s.currentBlock.data.length + chunkHeaderSize + chk.data.length then
        s.flushBlock true
      else s
    let pr := s1.writeChunk chk.data chk.chunkType
    pr.2.writeLoop rest (pos.getD pr.1 |> some)

/-- `Segment.Write`: reject when closed, else split into chunks and
append them all; returns the position of the first chunk (`none` when
no chunk was emitted, modelling the `nil` position). -/
def Segment.Write (s : Segment) (data : List Nat) :
    Except WErr (Option Position × Segment) :=
  if s.closed then .error .closed
  else .ok (s.writeLoop (s.splitIntoChunks data) none)

/-- `Segment.Sync`: flush without padding, then fsync (a no-op for the
model's disk). -/
def Segment.Sync (s : Segment) : Except WErr Segment :=
  if s.closed then .error .closed else .ok (s.flushBlock false)

/-- `Segment.readBlock`: serve from the single-slot cache on an id hit;
otherwise seek to `blockID * blockSize` and `io.ReadFull` a whole block
into the cache buffer.  A read at or past the end of the file yields 0
bytes, hence `io.EOF` (not tolerated); a partial read keeps the stale
tail of the cache buffer and its `io.ErrUnexpectedEOF` is tolerated.
The cache id is updated before the read is attempted, as in the source. -/
def Segment.readBlock (s : Segment) (blockID : Nat) :
    Except WErr (List Nat) × Segment :=
  if s.closed then (.error .closed, s)
  else if s.cachedId = some blockID then (.ok s.cachedData, s)
  else
    let blockOffset := blockID * blockSize
    if s.file.length ≤ blockOffset then
      (.error .eof, { s with cachedId := some blockID })
    else
      let avail := min blockSize (s.file.length - blockOffset)
      let newData := (s.file.drop blockOffset).take avail ++ s.cachedData.drop avail
      (.ok newData, { s with cachedId := some blockID, cachedData := newData })

/-- `Segment.readChunk` (it ignores the receiver in the source): parse a
chunk from the start of `data`; `endOfBlock` when a whole header or the
declared payload does not fit, `invalidCRC` on checksum mismatch. -/
def readChunk (data : List Nat) : Except WErr Chunk :=
  if data.length < chunkHeaderSize then .error .endOfBlock
  else
    let expectedCRC := getUint32LE data
    let length := getUint16LE (data.drop 4)
    let chunkType := data.getD 6 0
    if data.length < length + chunkHeaderSize then .error .endOfBlock
    else
      let chunkData := (data.drop chunkHeaderSize).take length
      if crc32 chunkData = expectedCRC then .ok ⟨chunkData, chunkType⟩
      else .error .invalidCRC

/-- The loop of `Segment.Read`, with explicit fuel (the source loop
always terminates because the file is finite and each iteration either
returns or advances; `Segment.Read` supplies ample fuel).  Mirrors the
source: read the block, fail `endOfBlock` when the offset is out of
range, parse a chunk, return `io.EOF` for a zero-length chunk, check
the chunk type sequence, accumulate the payload, and stop on a
`LAST`/`FULL` chunk. -/
def Segment.readLoop (s : Segment) (blockId offset : Nat) (entry : List Nat) :
    Nat → (Except WErr (List Nat)) × Segment
  | 0 => (.error .fuelOut, s)
  | fuel + 1 =>
    match s.readBlock blockId with
    | (.error e, s') => (.error e, s')
    | (.ok blockData, s') =>
      if blockData.length ≤ offset then (.error .endOfBlock, s')
      else
        match readChunk (blockData.drop offset) with
        | .error e => (.error e, s')
        | .ok chk =>
          if chk.data.length = 0 then (.error .eof, s')
          else if entry.length = 0 ∧ ¬(chk.chunkType = kFullType ∨ chk.chunkType = kFirstType) then
            (.error .invalidChunkType, s')
          else if entry.length ≠ 0 ∧ ¬(chk.chunkType = kMiddleType ∨ chk.chunkType = kLastType) then
            (.error .invalidChunkType, s')
          else
            let entry' := entry ++ chk.data
            if chk.chunkType = kLastType ∨ chk.chunkType = kFullType then (.ok entry', s')
            else
              let offset' := offset + chunkHeaderSize + chk.data.length
              if blockData.length ≤ offset' then s'.readLoop (blockId + 1) 0 entry' fuel
              else s'.readLoop blockId offset' entry' fuel

/-- `Segment.Read`: run the read loop from the given position with an
empty entry accumulator and ample fuel. -/
def Segment.Read (s : Segment) (pos : Position) :
    (Except WErr (List Nat)) × Segment :=
  s.readLoop pos.blockId pos.offset [] (s.file.length + blockSize + 2)

/-! ## The log orchestrator (`WAL`) -/

/-- The log: the rotation threshold (`Options.SegmentSize`), the segment
map (`map[int]*Segment`, modelled as an association list), and the id
of the active segment (`w.segment` is a pointer into the map in the
source; the map entry is the authoritative state here). -/
structure WAL where
  segmentSize : Nat
  segments : List (Nat × Segment)
  active : Nat
  deriving Repr

/-- Update the entry with the given key in the segment map. -/
def listUpdate (l : List (Nat × Segment)) (k : Nat) (v : Segment) :
    List (Nat × Segment) :=
  l.map fun p => if p.1 = k then (k, v) else p

/-- `Open` on an empty directory: create segment 0 and make it active. -/
def OpenWAL (segmentSize : Nat) : WAL :=
  { segmentSize := segmentSize
    segments := [(0, NewSegment 0 [])]
    active := 0 }

/-- `WAL.rotate`: sync the active segment, create the segment with id
one greater (a fresh, empty file), insert it into the map and designate
it active. -/
def WAL.rotate (w : WAL) : Except WErr WAL :=
  match w.segments.lookup w.active with
  | none => .error .segmentNotFound
  | some seg =>
    match seg.Sync with
    | .error e => .error e
    | .ok seg' =>
      let segId := seg'.Id + 1
      let newSeg := NewSegment segId []
      .ok { w with
              segments := listUpdate w.segments w.active seg' ++ [(segId, newSeg)]
              active := segId }

/-- `WAL.Write`: rotate first when the active segment's `Size()` has
reached the threshold, then write into the active segment. -/
def WAL.Write (w : WAL) (data : List Nat) :
    Except WErr (Option Position × WAL) :=
  match w.segments.lookup w.active with
  | none => .error .segmentNotFound
  | some seg =>
    let rot : Except WErr WAL :=
      if w.segmentSize ≤ seg.Size then w.rotate else .ok w
    match rot with
    | .error e => .error e
    | .ok w1 =>
      match w1.segments.lookup w1.active with
      | none => .error .segmentNotFound
      | some seg1 =>
        match seg1.Write data with
        | .error e => .error e
        | .ok (pos, seg2) =>
          .ok (pos, { w1 with segments := listUpdate w1.segments w1.active seg2 })

/-- `WAL.Read`: look the owning segment up by the position's segment id
and delegate. -/
def WAL.Read (w : WAL) (pos : Position) :
    (Except WErr (List Nat)) × WAL :=
  match w.segments.lookup pos.segmentId with
  | none => (.error .segmentNotFound, w)
  | some seg =>
    let pr := seg.Read pos
    (pr.1, { w with segments := listUpdate w.segments pos.segmentId pr.2 })

/-- `WAL.Sync`: sync the active segment. -/
def WAL.Sync (w : WAL) : Except WErr WAL :=
  match w.segments.lookup w.active with
  | none => .error .segmentNotFound
  | some seg =>
    match seg.Sync with
    | .error e => .error e
    | .ok seg' => .ok { w with segments := listUpdate w.segments w.active seg' }

/-! ## The streaming reader -/

/-- A streaming reader: its position, the id of the segment it
currently reads (`r.current` is a segment pointer in the source), and
its closed flag. -/
structure Reader where
  pos : Position
  currentId : Nat
  closed : Bool
  deriving Repr

/-- `WAL.NewReader`: validate that the position's segment exists. -/
def WAL.NewReader (w : WAL) (pos : Position) : Except WErr Reader :=
  match w.segments.lookup pos.segmentId with
  | none => .error .segmentNotFound
  | some _ => .ok ⟨pos, pos.segmentId, false⟩

/-- The loop of `Reader.Next`, fuelled by the number of segments plus
one (the loop re-enters only when it moves to the next segment).  On
`io.EOF` from the current segment, move to segment `pos.segmentId + 1`
or close and return `io.EOF` when there is none; on success advance the
offset by `chunkHeaderSize + len(entry)` and roll to the next block
when it reaches `blockSize`. -/
def Reader.nextLoop (w : WAL) (r : Reader) :
    Nat → (Except WErr (List Nat)) × WAL × Reader
  | 0 => (.error .fuelOut, w, r)
  | fuel + 1 =>
    match w.segments.lookup r.currentId with
    | none => (.error .segmentNotFound, w, r)
    | some seg =>
      let pr := seg.Read r.pos
      let w' := { w with segments := listUpdate w.segments r.currentId pr.2 }
      match pr.1 with
      | .ok entry =>
        let off := r.pos.offset + chunkHeaderSize + entry.length
        let pos' := if blockSize ≤ off then Position.mk r.pos.segmentId (r.pos.blockId + 1) 0
                    else { r.pos with offset := off }
        (.ok entry, w', { r with pos := pos' })
      | .error e =>
        if e = .eof then
          match w'.segments.lookup (r.pos.segmentId + 1) with
          | none => (.error .eof, w', { r with closed := true })
          | some _ =>
            Reader.nextLoop w'
              { r with currentId := r.pos.segmentId + 1
                       pos := ⟨r.pos.segmentId + 1, 0, 0⟩ } fuel
        else (.error e, w', r)

/-- `Reader.Next`: `io.EOF` when closed, else run the loop. -/
def Reader.Next (w : WAL) (r : Reader) :
    (Except WErr (List Nat)) × WAL × Reader :=
  if r.closed then (.error .eof, w, r)
  else Reader.nextLoop w r (w.segments.length + 1)

/-! ## Generic helpers -/

instance {ε α : Type} [DecidableEq ε] [DecidableEq α] : DecidableEq (Except ε α)
  | .ok a, .ok b =>
    if h : a = b then .isTrue (by rw [h]) else .isFalse (by simp [h])
  | .error a, .error b =>
    if h : a = b then .isTrue (by rw [h]) else .isFalse (by simp [h])
  | .ok _, .error _ => .isFalse (by simp)
  | .error _, .ok _ => .isFalse (by simp)

/-! ## The hex codec: exact success/failure characterization -/

/-- The inputs `hex.DecodeString` accepts: even length, hex digits only. -/
def validHex (s : List Char) : Prop :=
  s.length % 2 = 0 ∧ ∀ c ∈ s, (hexDigit? c).isSome

instance (s : List Char) : Decidable (validHex s) := by
  unfold validHex; infer_instance

/-! ## Scenario compositions used by counterexamples -/

/-- Write one entry and immediately read it back at the returned
position, with no `Sync` or flush in between. -/
def writeThenRead (s : Segment) (data : List Nat) : Except WErr (List Nat) :=
  match s.Write data with
  | .ok (some p, s₁) => (s₁.Read p).1
  | .ok (none, _) => .error .fuelOut
  | .error e => .error e

/-- `"first entry"` as bytes. -/
def cFirstEntry : List Nat := [102, 105, 114, 115, 116, 32, 101, 110, 116, 114, 121]

/-- `"second entry that triggers rotation"` as bytes. -/
def cSecondEntry : List Nat :=
  [115, 101, 99, 111, 110, 100, 32, 101, 110, 116, 114, 121, 32, 116, 104, 97, 116,
   32, 116, 114, 105, 103, 103, 101, 114, 115, 32, 114, 111, 116, 97, 116, 105, 111, 110]

/-- Open a log with `segment_size = 20`, write the two scenario entries,
and return both positions. -/
def twoWritePositions : Option (Position × Position) :=
  match (OpenWAL 20).Write cFirstEntry with
  | .ok (some pa, w1) =>
    match w1.Write cSecondEntry with
    | .ok (some pb, _) => some (pa, pb)
    | _ => none
  | _ => none

/-! ## Spec-side views of segment state

`vstream s` is the byte stream the segment has committed to: the whole
blocks already on disk followed by the current block buffer.  Writes
only ever append to it, and `Sync` makes the file equal to it. -/

/-- The committed byte stream of a segment. -/
def vstream (s : Segment) : List Nat :=
  s.file.take (s.currentBlock.id * blockSize) ++ s.currentBlock.data

/-- The global byte position at which the next chunk would be placed. -/
def gpos (s : Segment) : Nat :=
  s.currentBlock.id * blockSize + s.currentBlock.data.length

/-- The reachable-state invariant of a segment: the flushed watermark
is within the buffer, the buffer fits a block, and the file consists of
`currentBlock.id` whole blocks followed by the flushed prefix of the
buffer. -/
structure SegInv (s : Segment) : Prop where
  flushed_le : s.currentBlock.flushed ≤ s.currentBlock.data.length
  data_le : s.currentBlock.data.length ≤ blockSize
  file_len : s.file.length = s.currentBlock.id * blockSize + s.currentBlock.flushed
  file_tail : s.file.drop (s.currentBlock.id * blockSize)
      = s.currentBlock.data.take s.currentBlock.flushed

/-- The on-disk framing of a chunk: header then payload, exactly the
bytes `writeChunk` appends. -/
def chunkBytes (c : Chunk) : List Nat :=
  putUint32LE (crc32 c.data) ++ putUint16LE c.data.length ++ [c.chunkType] ++ c.data

/-- Concatenated payloads of a chunk list. -/
def payloads (cs : List Chunk) : List Nat := (cs.map Chunk.data).flatten

/-- Concatenated on-disk framings of a chunk list. -/
def chunksBytes (cs : List Chunk) : List Nat := (cs.map chunkBytes).flatten

/-- The chunk-type discipline `FULL | (FIRST MIDDLE* LAST)`, split by
whether the sequence starts an entry (`first = true`) or continues one. -/
def ChunkSeq : Bool → List Chunk → Prop
  | _, [] => True
  | first, [c] => c.chunkType = if first then kFullType else kLastType
  | first, c :: rest => c.chunkType = (if first then kFirstType else kMiddleType) ∧
      ChunkSeq false rest

/-- Sizes produced by the split loop: every chunk but the last is
exactly `blockSize - chunkHeaderSize` long; the last is between 1 and
`blockSize - chunkHeaderSize`. -/
def TailSizes : List Chunk → Prop
  | [] => True
  | [c] => 1 ≤ c.data.length ∧ c.data.length ≤ blockSize - chunkHeaderSize
  | c :: rest => c.data.length = blockSize - chunkHeaderSize ∧ TailSizes rest

/-- `bytes` occur verbatim in `f` starting at position `q`. -/
def sliceEq (f : List Nat) (q : Nat) (bytes : List Nat) : Prop :=
  q + bytes.length ≤ f.length ∧
  ∀ j, j < bytes.length → f.getD (q + j) 0 = bytes.getD j 0

/-- The chunks `cs` are laid out in `f` starting at offset `o` of block
`b`: each chunk fits its block (`o + 7 + len ≤ blockSize`), its framing
occurs verbatim, and any successor chunk starts at offset 0 of the next
block after this one filled its block exactly. -/
def LocatedFrom (f : List Nat) : Nat → Nat → List Chunk → Prop
  | _, _, [] => True
  | b, o, c :: rest =>
    o + chunkHeaderSize + c.data.length ≤ blockSize ∧
    sliceEq f (b * blockSize + o) (chunkBytes c) ∧
    (rest = [] ∨ (o + chunkHeaderSize + c.data.length = blockSize ∧
      LocatedFrom f (b + 1) 0 rest))

/-! ## Position ordering across writes -/

/-- Strict lexicographic order on positions, by
`(segmentId, blockId, offset)`. -/
def posLt (p q : Position) : Prop :=
  p.segmentId < q.segmentId ∨
    (p.segmentId = q.segmentId ∧
      (p.blockId < q.blockId ∨ (p.blockId = q.blockId ∧ p.offset < q.offset)))

/-- The reachable-state invariant the write path maintains on a log:
the active segment exists, is open and invariant, carries the active id
as its own id, and no key in the map exceeds the active id. -/
structure WInv (w : WAL) (seg : Segment) : Prop where
  lk : w.segments.lookup w.active = some seg
  inv : SegInv seg
  op : seg.closed = false
  sid : seg.id = w.active
  keys : ∀ kv ∈ w.segments, kv.1 ≤ w.active

/-- Drive a sequence of writes, collecting the returned positions. -/
def writeAll (w : WAL) : List (List Nat) → Except WErr (List Position × WAL)
  | [] => .ok ([], w)
  | d :: ds =>
    match w.Write d with
    | .error e => .error e
    | .ok (pos, w1) =>
      match writeAll w1 ds with
      | .error e => .error e
      | .ok (ps, w2) => .ok (pos.toList ++ ps, w2)

/-- The framed first entry of the staleness scenario. -/
def cChunk1 : List Nat := chunkBytes ⟨[1], kFullType⟩

/-- The framed second entry of the staleness scenario. -/
def cChunk2 : List Nat := chunkBytes ⟨[2], kFullType⟩

/-- The block snapshot the first read caches: the first chunk followed
by the stale zero tail of the cache buffer. -/
def cBd0 : List Nat := cChunk1 ++ List.replicate (blockSize - 8) 0

/-- Scenario states: after writing the first entry, -/
def cSeg1 : Segment :=
  { id := 0, file := [], closed := false,
    currentBlock := ⟨0, cChunk1, 0⟩, cachedId := none,
    cachedData := List.replicate blockSize 0 }

/-- after the first sync, -/
def cSeg2 : Segment :=
  { cSeg1 with file := cChunk1, currentBlock := ⟨0, cChunk1, 8⟩ }

/-- after the first read cached block 0, -/
def cSeg3 : Segment :=
  { cSeg2 with cachedId := some 0, cachedData := cBd0 }

/-- after writing the second entry, -/
def cSeg4 : Segment :=
  { cSeg3 with currentBlock := ⟨0, cChunk1 ++ cChunk2, 8⟩ }

/-- and after the second sync (both entries on disk, cache stale). -/
def cSeg5 : Segment :=
  { cSeg4 with
    file := cChunk1 ++ cChunk2
    currentBlock := ⟨0, cChunk1 ++ cChunk2, 16⟩ }

/-- The three entries of the reader scenario (`entry1`..`entry3`). -/
def rE1 : List Nat := [101, 110, 116, 114, 121, 49]

/-- `entry2`. -/
def rE2 : List Nat := [101, 110, 116, 114, 121, 50]

/-- `entry3`. -/
def rE3 : List Nat := [101, 110, 116, 114, 121, 51]

/-- Their on-disk framings (each 13 bytes). -/
def rC1 : List Nat := chunkBytes ⟨rE1, kFullType⟩

/-- second framing. -/
def rC2 : List Nat := chunkBytes ⟨rE2, kFullType⟩

/-- third framing. -/
def rC3 : List Nat := chunkBytes ⟨rE3, kFullType⟩

/-- Segment states after each write, -/
def rSeg1 : Segment :=
  { id := 0, file := [], closed := false, currentBlock := ⟨0, rC1, 0⟩,
    cachedId := none, cachedData := List.replicate blockSize 0 }

/-- after the second write, -/
def rSeg2 : Segment := { rSeg1 with currentBlock := ⟨0, rC1 ++ rC2, 0⟩ }

/-- after the third write, -/
def rSeg3 : Segment :=
  { rSeg1 with currentBlock := ⟨0, rC1 ++ rC2 ++ rC3, 0⟩ }

/-- after `Sync` (all three framings on disk), -/
def rSegS : Segment :=
  { rSeg1 with
    file := rC1 ++ rC2 ++ rC3
    currentBlock := ⟨0, rC1 ++ rC2 ++ rC3, 39⟩ }

/-- the block snapshot the first `Next` caches, -/
def rBd : List Nat := rC1 ++ rC2 ++ rC3 ++ List.replicate (blockSize - 39) 0

/-- and the segment once block 0 is cached. -/
def rSegR : Segment := { rSegS with cachedId := some 0, cachedData := rBd }

/-- Log states along the scenario. -/
def rW1 : WAL := { segmentSize := 1000, segments := [(0, rSeg1)], active := 0 }

/-- after the second write. -/
def rW2 : WAL := { rW1 with segments := [(0, rSeg2)] }

/-- after the third write. -/
def rW3 : WAL := { rW1 with segments := [(0, rSeg3)] }

/-- after `Sync`. -/
def rW4 : WAL := { rW1 with segments := [(0, rSegS)] }

/-- after the first `Next` cached block 0. -/
def rW5 : WAL := { rW1 with segments := [(0, rSegR)] }

/-- Reader states along the scenario. -/
def rRd0 : Reader := ⟨⟨0, 0, 0⟩, 0, false⟩

/-- after reading `entry1`. -/
def rRd1 : Reader := ⟨⟨0, 0, 13⟩, 0, false⟩

/-- after reading `entry2`. -/
def rRd2 : Reader := ⟨⟨0, 0, 26⟩, 0, false⟩

/-- after reading `entry3`. -/
def rRd3 : Reader := ⟨⟨0, 0, 39⟩, 0, false⟩

/-- after the final `io.EOF`. -/
def rRd4 : Reader := ⟨⟨0, 0, 39⟩, 0, true⟩

/-- The tampered on-disk image for the C6 witness: a one-byte entry
whose stored CRC field was zeroed. -/
def c6seg : Segment :=
  { id := 0, file := [0, 0, 0, 0] ++ putUint16LE 1 ++ [0] ++ [1],
    closed := false, currentBlock := ⟨0, [], 0⟩, cachedId := none,
    cachedData := List.replicate blockSize 0 }

/-- The cache-hit tampering state: `cSeg3` (the segment that wrote and
synced the entry `[1]` and then cached block 0 on a read) with the
single on-disk payload byte flipped from `1` to `2`; only the file is
changed, the cache slot still holds the pre-flip snapshot. -/
def c6tampered : Segment :=
  { cSeg3 with
    file := putUint32LE (crc32 [1]) ++ putUint16LE 1 ++ [kFullType] ++ [2] }

/-! ## Theorems -/

theorem getUint32LE_putUint32LE (n : Nat) (h : n < 2 ^ 32) :
    getUint32LE (putUint32LE n) = n := by
  simp only [getUint32LE, putUint32LE, List.getD_cons_zero, List.getD_cons_succ]
  have h1 : n / 65536 = n / 256 / 256 := by omega
  have h2 : n / 16777216 = n / 256 / 256 / 256 := by omega
  omega

theorem getUint16LE_putUint16LE (n : Nat) (h : n < 2 ^ 16) :
    getUint16LE (putUint16LE n) = n := by
  simp only [getUint16LE, putUint16LE, List.getD_cons_zero, List.getD_cons_succ]
  omega

theorem hexDecode_ok_length : ∀ (s : List Char) (l : List Nat),
    hexDecode s = .ok l → l.length = s.length / 2
  | [], l, h => by simp [hexDecode] at h; simp [← h]
  | [c], l, h => by simp [hexDecode] at h
  | c1 :: c2 :: rest, l, h => by
    rw [hexDecode] at h
    rcases hd1 : hexDigit? c1 with _ | a <;> rw [hd1] at h <;>
      [skip; rcases hd2 : hexDigit? c2 with _ | b] <;> [simp at h; rw [hd2] at h; rw [hd2] at h]
    · simp at h
    · cases hrec : hexDecode rest with
      | ok l' =>
        rw [hrec] at h; simp at h
        have := hexDecode_ok_length rest l' hrec
        simp [← h, this]; omega
      | error e => rw [hrec] at h; simp at h

theorem hexDecode_ok_of_validHex : ∀ (s : List Char), validHex s →
    ∃ l, hexDecode s = .ok l
  | [], _ => ⟨[], rfl⟩
  | [c], h => by simp [validHex] at h
  | c1 :: c2 :: rest, h => by
    obtain ⟨heven, hall⟩ := h
    have h1 := hall c1 (by simp)
    have h2 := hall c2 (by simp)
    rcases hd1 : hexDigit? c1 with _ | a
    · rw [hd1] at h1; simp at h1
    rcases hd2 : hexDigit? c2 with _ | b
    · rw [hd2] at h2; simp at h2
    have hrest : validHex rest :=
      ⟨by simp at heven; omega, fun c hc => hall c (by simp [hc])⟩
    obtain ⟨l, hl⟩ := hexDecode_ok_of_validHex rest hrest
    exact ⟨(16 * a + b) :: l, by rw [hexDecode, hd1, hd2, hl]⟩

theorem hexDecode_error_of_not_validHex : ∀ (s : List Char), ¬ validHex s →
    hexDecode s = .error .hexError
  | [], h => absurd ⟨rfl, by simp⟩ h
  | [c], _ => rfl
  | c1 :: c2 :: rest, h => by
    rcases hd1 : hexDigit? c1 with _ | a
    · rw [hexDecode, hd1]
    rcases hd2 : hexDigit? c2 with _ | b
    · rw [hexDecode, hd1, hd2]
    have hrest : ¬ validHex rest := by
      intro ⟨he, hv⟩
      refine h ⟨by simp; omega, ?_⟩
      intro c hc
      rcases hc with _ | ⟨_, hc⟩
      · simp [hd1]
      rcases hc with _ | ⟨_, hc⟩
      · simp [hd2]
      · exact hv c hc
    rw [hexDecode, hd1, hd2, hexDecode_error_of_not_validHex rest hrest]

/-- Helper for C2: on a reopened file of `blockSize + 10` bytes the
current block has id 1 and flushed watermark 10, yet `Size` reports
only 10 bytes. -/
theorem c2_general (f : List Nat) (h : f.length = blockSize + 10) :
    (NewSegment 0 f).currentBlock.id = 1 ∧
    (NewSegment 0 f).currentBlock.flushed = 10 ∧
    (NewSegment 0 f).file.length = 1 * blockSize + 10 ∧
    (NewSegment 0 f).Size = 10 := by
  have hb : blockSize = 32768 := by norm_num [blockSize]
  have h' : f.length = 32778 := by omega
  have hid : (NewSegment 0 f).currentBlock.id = 1 := by
    simp only [NewSegment, h', hb]
  have hocc : f.length % blockSize = 10 := by rw [hb]; omega
  have hfl : (NewSegment 0 f).currentBlock.flushed = 10 := by
    simp only [NewSegment, hocc]
    rw [if_neg (by omega)]
    simp only [List.length_drop]
    omega
  refine ⟨hid, hfl, by simp only [NewSegment]; omega, ?_⟩
  simp only [Segment.Size, hfl, hid]
  norm_num

/-! ## Claim C1 (counterexample part) -/

/-- **C1, counterexample.**  On a fresh log, `Write` buffers the entry
in memory only; an immediate `Read` (no `Sync`, no flush) reads the
empty file and surfaces `io.EOF` instead of the entry, so
`L.Read(L.Write(data))` does *not* return `data`. -/
theorem c1_counterexample :
    writeThenRead (NewSegment 0 []) [97] = .error .eof ∧
    writeThenRead (NewSegment 0 []) [97] ≠ .ok [97] :=
  ⟨by decide, by decide⟩

/-! ## Claim C2 -/

/-- **C2.**  `Segment.Size` does not return
`currentBlock.id * blockSize + currentBlock.flushed`: after opening a
file of `blockSize + 10` bytes the current block has id 1 and flushed
watermark 10, but `Size()` returns 10 instead of `1 * blockSize + 10`
(the on-disk size), because the source computes
`(id - 1) * blockSize + flushed`. -/
theorem c2_size_mismatch :
    (NewSegment 0 (List.replicate (blockSize + 10) 1)).currentBlock.id = 1 ∧
    (NewSegment 0 (List.replicate (blockSize + 10) 1)).currentBlock.flushed = 10 ∧
    (NewSegment 0 (List.replicate (blockSize + 10) 1)).file.length = 1 * blockSize + 10 ∧
    (NewSegment 0 (List.replicate (blockSize + 10) 1)).Size = 10 ∧
    (10 : Nat) ≠ 1 * blockSize + 10 := by
  obtain ⟨h1, h2, h3, h4⟩ := c2_general (List.replicate (blockSize + 10) 1)
    (List.length_replicate _ _)
  exact ⟨h1, h2, h3, h4, by norm_num [blockSize]⟩

/-! ## Claim C3 (counterexample part) -/

/-- **C3, counterexample.**  With `segment_size = 20`, writing
`"first entry"` and then `"second entry that triggers rotation"` does
*not* rotate: `Size()` counts only flushed bytes, nothing was flushed
between the writes, so both positions live in segment 0 and
`A.segment_id = B.segment_id` (the claim asserts they differ). -/
theorem c3_counterexample :
    twoWritePositions = some (⟨0, 0, 0⟩, ⟨0, 0, 18⟩) ∧
    twoWritePositions.all (fun pr => pr.1.segmentId == pr.2.segmentId) = true :=
  ⟨by decide, by decide⟩

/-! ## Claim C7 (counterexample part) -/

/-- **C7, counterexample.**  `Write` of an empty entry is *not*
rejected: on a fresh segment it succeeds, returns position `(0,0,0)`,
and appends exactly the 7 zero bytes of a zero-length `FULL` chunk (the
empty-chunk sentinel) to the block buffer. -/
theorem c7_counterexample :
    ((NewSegment 0 []).Write []).toOption.map Prod.fst = some (some ⟨0, 0, 0⟩) ∧
    (((NewSegment 0 []).Write []).toOption.map fun pr => pr.2.currentBlock.data)
      = some [0, 0, 0, 0, 0, 0, 0] ∧
    (NewSegment 0 []).splitIntoChunks [] = [⟨[], kFullType⟩] :=
  ⟨by decide, by decide, by decide⟩

/-! ## Claim C8 -/

/-- **C8, counterexample.**  Hex decoding of a non-hex string fails
with the hex codec's own error, not with the position codec's
`invalid format` error: the claim's "hex decoding fails with
InvalidFormat" does not hold for invalid hex input. -/
theorem c8_counterexample :
    Position.DecodeString (List.replicate 24 'z') = .error .hexError ∧
    (Except.error WErr.hexError : Except WErr Position) ≠ .error .invalidFormat :=
  ⟨by decide, by decide⟩

/-- **C8 (amended).**  `Encode` always yields 12 bytes and
`Decode (Encode p) = p` for components below `2^32`; `Decode` fails
with `invalid format` exactly when its input is not 12 bytes; hex
decoding fails whenever the string is not valid hex of length 24 — with
the hex package's error when the string is not valid even-length hex,
and with `invalid format` (from `Decode`) when it is valid hex of a
length other than 24. -/
theorem c8_codec (p : Position) (data : List Nat) (s : List Char)
    (h1 : p.segmentId < 2 ^ 32) (h2 : p.blockId < 2 ^ 32) (h3 : p.offset < 2 ^ 32) :
    (Position.Encode p).length = 12 ∧
    Position.Decode (Position.Encode p) = .ok p ∧
    (data.length ≠ 12 → Position.Decode data = .error .invalidFormat) ∧
    (data.length = 12 → ∃ q, Position.Decode data = .ok q) ∧
    (¬ validHex s → Position.DecodeString s = .error .hexError) ∧
    (validHex s → s.length ≠ 24 → Position.DecodeString s = .error .invalidFormat) ∧
    (validHex s → s.length = 24 → ∃ q, Position.DecodeString s = .ok q) := by
  refine ⟨by simp [Position.Encode, putUint32LE], ?_, ?_, ?_, ?_, ?_, ?_⟩
  · obtain ⟨a, b, c⟩ := p
    simp only [Position.Encode, Position.Decode, putUint32LE, List.cons_append,
      List.nil_append]
    rw [if_pos (by simp)]
    simp only [getUint32LE, List.getD_cons_zero, List.getD_cons_succ,
      List.drop_succ_cons, List.drop_zero]
    simp only [Except.ok.injEq, Position.mk.injEq]
    simp only at h1 h2 h3
    have e1 : a / 65536 = a / 256 / 256 := by omega
    have e2 : a / 16777216 = a / 256 / 256 / 256 := by omega
    have e3 : b / 65536 = b / 256 / 256 := by omega
    have e4 : b / 16777216 = b / 256 / 256 / 256 := by omega
    have e5 : c / 65536 = c / 256 / 256 := by omega
    have e6 : c / 16777216 = c / 256 / 256 / 256 := by omega
    refine ⟨by omega, by omega, by omega⟩
  · intro h; simp [Position.Decode, h]
  · intro h
    exact ⟨⟨getUint32LE data, getUint32LE (data.drop 4), getUint32LE (data.drop 8)⟩,
      by simp [Position.Decode, h]⟩
  · intro h; simp [Position.DecodeString, hexDecode_error_of_not_validHex s h]
  · intro hv hlen
    obtain ⟨l, hl⟩ := hexDecode_ok_of_validHex s hv
    have := hexDecode_ok_length s l hl
    have hne : l.length ≠ 12 := by
      obtain ⟨he, _⟩ := hv; omega
    simp [Position.DecodeString, hl, Position.Decode, hne]
  · intro hv hlen
    obtain ⟨l, hl⟩ := hexDecode_ok_of_validHex s hv
    have := hexDecode_ok_length s l hl
    have h12 : l.length = 12 := by omega
    exact ⟨⟨getUint32LE l, getUint32LE (l.drop 4), getUint32LE (l.drop 8)⟩,
      by simp [Position.DecodeString, hl, Position.Decode, h12]⟩

/-- **C8, witness.**  The codec theorem applied at the concrete
position `(1, 2, 3)`. -/
theorem c8_witness :
    ((1 : Nat) < 2 ^ 32 ∧ (2 : Nat) < 2 ^ 32 ∧ (3 : Nat) < 2 ^ 32) ∧
    ((Position.Encode ⟨1, 2, 3⟩).length = 12 ∧
      Position.Decode (Position.Encode ⟨1, 2, 3⟩) = .ok ⟨1, 2, 3⟩ ∧
      (([] : List Nat).length ≠ 12 → Position.Decode [] = .error .invalidFormat) ∧
      (([] : List Nat).length = 12 → ∃ q, Position.Decode [] = .ok q) ∧
      (¬ validHex [] → Position.DecodeString [] = .error .hexError) ∧
      (validHex [] → ([] : List Char).length ≠ 24 →
        Position.DecodeString [] = .error .invalidFormat) ∧
      (validHex [] → ([] : List Char).length = 24 →
        ∃ q, Position.DecodeString [] = .ok q)) :=
  ⟨⟨by norm_num, by norm_num, by norm_num⟩,
    c8_codec ⟨1, 2, 3⟩ [] [] (by norm_num) (by norm_num) (by norm_num)⟩

theorem sliceEq_append_right {f : List Nat} {q : Nat} {bytes : List Nat}
    (h : sliceEq f q bytes) (t : List Nat) : sliceEq (f ++ t) q bytes := by
  obtain ⟨hlen, hget⟩ := h
  refine ⟨by simp only [List.length_append]; omega, fun j hj => ?_⟩
  rw [List.getD_append _ _ _ _ (by omega)]
  exact hget j hj

theorem sliceEq_here {f bytes : List Nat} (t : List Nat) :
    sliceEq (f ++ bytes ++ t) f.length bytes := by
  refine ⟨by simp only [List.length_append]; omega, fun j hj => ?_⟩
  rw [show f ++ bytes ++ t = f ++ (bytes ++ t) by simp,
    List.getD_append_right _ _ _ _ (by omega)]
  simp only [Nat.add_sub_cancel_left]
  rw [List.getD_append _ _ _ _ hj]

theorem LocatedFrom_append {f : List Nat} {b o : Nat} {cs : List Chunk}
    (h : LocatedFrom f b o cs) (t : List Nat) : LocatedFrom (f ++ t) b o cs := by
  induction cs generalizing b o with
  | nil => trivial
  | cons c rest ih =>
    obtain ⟨h1, h2, h3⟩ := h
    refine ⟨h1, sliceEq_append_right h2 t, ?_⟩
    rcases h3 with h3 | ⟨h3, h4⟩
    · exact Or.inl h3
    · exact Or.inr ⟨h3, ih h4⟩

theorem vstream_length {s : Segment} (h : SegInv s) :
    (vstream s).length = gpos s := by
  simp only [vstream, gpos, List.length_append, List.length_take]
  have := h.file_len
  omega

theorem payloads_length_ge {cs : List Chunk} (h : ∀ c ∈ cs, c.data ≠ []) :
    cs.length ≤ (payloads cs).length := by
  induction cs with
  | nil => simp [payloads]
  | cons c rest ih =>
    have hc := h c (by simp)
    have := ih (fun c hc => h c (by simp [hc]))
    simp only [payloads, List.map_cons, List.flatten_cons, List.length_append,
      List.length_cons]
    have : 1 ≤ c.data.length := by
      cases hd : c.data with
      | nil => exact absurd hd hc
      | cons _ _ => simp
    simp only [payloads] at *
    omega

theorem splitLoopF_zero (data : List Nat) (offset fuel : Nat) :
    splitLoopF data offset 0 fuel = [] := by
  cases fuel <;> simp [splitLoopF]

theorem splitLoopF_spec (data : List Nat) : ∀ (fuel remaining offset : Nat),
    remaining ≤ fuel → 1 ≤ remaining → offset + remaining = data.length →
    payloads (splitLoopF data offset remaining fuel) = data.drop offset ∧
    TailSizes (splitLoopF data offset remaining fuel) ∧
    splitLoopF data offset remaining fuel ≠ [] ∧
    (remaining = data.length → ChunkSeq true (splitLoopF data offset remaining fuel)) ∧
    (remaining ≠ data.length → ChunkSeq false (splitLoopF data offset remaining fuel)) := by
  intro fuel
  induction fuel with
  | zero => intro remaining offset h1 h2 _; omega
  | succ n ih =>
    intro remaining offset hle h1 hsum
    have hB : blockSize - chunkHeaderSize = 32761 := by norm_num [blockSize, chunkHeaderSize]
    rw [splitLoopF, if_neg (by omega)]
    by_cases hsmall : remaining ≤ blockSize - chunkHeaderSize
    · have hmin : min (blockSize - chunkHeaderSize) remaining = remaining :=
        Nat.min_eq_right hsmall
      rw [hmin, Nat.sub_self, splitLoopF_zero]
      have hdlen : (data.drop offset).length = remaining := by
        simp [List.length_drop]; omega
      have htake : (data.drop offset).take remaining = data.drop offset :=
        List.take_of_length_le (by omega)
      refine ⟨by simp [payloads, htake], ?_, by simp, ?_, ?_⟩
      · refine ⟨?_, ?_⟩ <;> simp [htake, hdlen] <;> omega
      · intro heq
        rw [if_pos ⟨heq, by omega⟩]
        simp [ChunkSeq]
      · intro hne
        rw [if_neg (by tauto), if_neg (by tauto), if_pos (by omega)]
        simp [ChunkSeq]
    · push_neg at hsmall
      have hmin : min (blockSize - chunkHeaderSize) remaining = blockSize - chunkHeaderSize :=
        Nat.min_eq_left (by omega)
      rw [hmin]
      have hrem1 : 1 ≤ remaining - (blockSize - chunkHeaderSize) := by omega
      have hrle : remaining - (blockSize - chunkHeaderSize) ≤ n := by omega
      have hsum' : offset + (blockSize - chunkHeaderSize) + (remaining - (blockSize - chunkHeaderSize))
          = data.length := by omega
      obtain ⟨ihp, ihts, ihne, _, ihcs⟩ := ih (remaining - (blockSize - chunkHeaderSize))
        (offset + (blockSize - chunkHeaderSize)) hrle hrem1 hsum'
      have hcsf : ChunkSeq false (splitLoopF data (offset + (blockSize - chunkHeaderSize))
          (remaining - (blockSize - chunkHeaderSize)) n) := by
        apply ihcs; omega
      have hheadlen : ((data.drop offset).take (blockSize - chunkHeaderSize)).length
          = blockSize - chunkHeaderSize := by
        simp [List.length_take, List.length_drop]; omega
      have htype : (if remaining = data.length ∧ blockSize - chunkHeaderSize = data.length
            then kFullType
          else if remaining = data.length then kFirstType
          else if remaining = blockSize - chunkHeaderSize then kLastType
          else kMiddleType)
          = if remaining = data.length then kFirstType else kMiddleType := by
        rw [if_neg (by omega)]
        by_cases h : remaining = data.length
        · rw [if_pos h, if_pos h]
        · rw [if_neg h, if_neg h, if_neg (by omega)]
      rw [htype]
      obtain ⟨r, rs, hrest⟩ : ∃ r rs, splitLoopF data (offset + (blockSize - chunkHeaderSize))
          (remaining - (blockSize - chunkHeaderSize)) n = r :: rs := by
        cases hx : splitLoopF data (offset + (blockSize - chunkHeaderSize))
          (remaining - (blockSize - chunkHeaderSize)) n with
        | nil => exact absurd hx ihne
        | cons r rs => exact ⟨r, rs, rfl⟩
      refine ⟨?_, ?_, by simp, ?_, ?_⟩
      · simp only [payloads, List.map_cons, List.flatten_cons]
        simp only [payloads] at ihp
        rw [ihp, ← List.drop_drop]
        exact List.take_append_drop _ _
      · rw [hrest]
        rw [hrest] at ihts
        exact ⟨hheadlen, ihts⟩
      · intro heq
        rw [hrest]
        rw [hrest] at hcsf
        exact ⟨by simp [heq], hcsf⟩
      · intro hne
        rw [hrest]
        rw [hrest] at hcsf
        exact ⟨by simp [hne], hcsf⟩

theorem TailSizes_min_len : ∀ cs : List Chunk, TailSizes cs → ∀ c ∈ cs, 1 ≤ c.data.length
  | [], _, c, hc => by simp at hc
  | [c0], h, c, hc => by
    rw [List.mem_singleton.mp hc]
    exact h.1
  | c0 :: c1 :: rest, h, c, hc => by
    rcases List.mem_cons.mp hc with rfl | hc
    · have hb : blockSize - chunkHeaderSize = 32761 := by norm_num [blockSize, chunkHeaderSize]
      have := h.1
      omega
    · exact TailSizes_min_len (c1 :: rest) h.2 c hc

theorem TailSizes_max_len : ∀ cs : List Chunk, TailSizes cs →
    ∀ c ∈ cs, c.data.length ≤ blockSize - chunkHeaderSize
  | [], _, c, hc => by simp at hc
  | [c0], h, c, hc => by
    rw [List.mem_singleton.mp hc]
    exact h.2
  | c0 :: c1 :: rest, h, c, hc => by
    rcases List.mem_cons.mp hc with rfl | hc
    · exact le_of_eq h.1
    · exact TailSizes_max_len (c1 :: rest) h.2 c hc

/-- Case analysis of `splitIntoChunks` on a non-empty entry: either the
whole entry fits the current block's free space (one `FULL` chunk), or a
`FIRST` chunk exactly fills the free space and the rest goes to fresh
blocks, or (fewer than 8 free bytes) everything goes to fresh blocks. -/
theorem splitIntoChunks_cases (s : Segment) (data : List Nat) (hne : data ≠ []) :
    (s.currentBlock.data.length + chunkHeaderSize < blockSize ∧
      data.length ≤ blockSize - s.currentBlock.data.length - chunkHeaderSize ∧
      s.splitIntoChunks data = [⟨data, kFullType⟩]) ∨
    (s.currentBlock.data.length + chunkHeaderSize < blockSize ∧
      blockSize - s.currentBlock.data.length - chunkHeaderSize < data.length ∧
      ∃ rest, s.splitIntoChunks data
          = ⟨data.take (blockSize - s.currentBlock.data.length - chunkHeaderSize),
             kFirstType⟩ :: rest ∧
        rest ≠ [] ∧ TailSizes rest ∧ ChunkSeq false rest ∧
        payloads rest = data.drop (blockSize - s.currentBlock.data.length - chunkHeaderSize)) ∨
    (blockSize ≤ s.currentBlock.data.length + chunkHeaderSize ∧
      s.splitIntoChunks data ≠ [] ∧ TailSizes (s.splitIntoChunks data) ∧
      ChunkSeq true (s.splitIntoChunks data) ∧ payloads (s.splitIntoChunks data) = data) := by
  have hdata1 : 1 ≤ data.length := by
    cases data with
    | nil => exact absurd rfl hne
    | cons _ _ => simp
  by_cases hguard : s.currentBlock.data.length + chunkHeaderSize < blockSize
  · by_cases hfit : data.length ≤ blockSize - s.currentBlock.data.length - chunkHeaderSize
    · left
      refine ⟨hguard, hfit, ?_⟩
      rw [Segment.splitIntoChunks, if_pos hguard]
      have hmin : min (blockSize - s.currentBlock.data.length - chunkHeaderSize) data.length
          = data.length := Nat.min_eq_right hfit
      rw [hmin, if_pos rfl, Nat.sub_self]
      simp [splitLoop, splitLoopF_zero, List.take_of_length_le (le_refl data.length)]
    · right; left
      push_neg at hfit
      refine ⟨hguard, hfit, ?_⟩
      rw [Segment.splitIntoChunks, if_pos hguard]
      have hmin : min (blockSize - s.currentBlock.data.length - chunkHeaderSize) data.length
          = blockSize - s.currentBlock.data.length - chunkHeaderSize :=
        Nat.min_eq_left (by omega)
      rw [hmin, if_neg (by omega)]
      obtain ⟨hp, hts, hnil, _, hcs⟩ := splitLoopF_spec data
        (data.length - (blockSize - s.currentBlock.data.length - chunkHeaderSize))
        (data.length - (blockSize - s.currentBlock.data.length - chunkHeaderSize))
        (blockSize - s.currentBlock.data.length - chunkHeaderSize)
        (le_refl _) (by omega) (by omega)
      exact ⟨_, rfl, hnil, hts, hcs (by omega), hp⟩
  · right; right
    push_neg at hguard
    rw [Segment.splitIntoChunks, if_neg (by omega)]
    obtain ⟨hp, hts, hnil, hcs, _⟩ := splitLoopF_spec data data.length data.length 0
      (le_refl _) hdata1 (by omega)
    rw [show data.drop 0 = data from List.drop_zero data] at hp
    exact ⟨hguard, hnil, hts, hcs rfl, hp⟩

/-! ## Write-path transition lemmas -/

theorem chunkBytes_length (c : Chunk) :
    (chunkBytes c).length = chunkHeaderSize + c.data.length := by
  simp [chunkBytes, putUint32LE, putUint16LE, chunkHeaderSize]
  omega

theorem writeChunk_fst (s : Segment) (d : List Nat) (t : Nat) :
    (s.writeChunk d t).1 = ⟨s.id, s.currentBlock.id, s.currentBlock.data.length⟩ := rfl

theorem writeChunk_snd (s : Segment) (d : List Nat) (t : Nat) :
    (s.writeChunk d t).2 = { s with currentBlock :=
      { s.currentBlock with data := s.currentBlock.data ++ chunkBytes ⟨d, t⟩ } } := by
  simp [Segment.writeChunk, chunkBytes]

theorem vstream_writeChunk (s : Segment) (d : List Nat) (t : Nat) :
    vstream (s.writeChunk d t).2 = vstream s ++ chunkBytes ⟨d, t⟩ := by
  rw [writeChunk_snd]
  simp [vstream]

theorem SegInv_writeChunk {s : Segment} (h : SegInv s) (d : List Nat) (t : Nat)
    (hfit : s.currentBlock.data.length + chunkHeaderSize + d.length ≤ blockSize) :
    SegInv (s.writeChunk d t).2 := by
  rw [writeChunk_snd]
  refine ⟨?_, ?_, h.file_len, ?_⟩
  · simp only [List.length_append]
    have := h.flushed_le
    omega
  · simp only [List.length_append, chunkBytes_length]
    omega
  · rw [List.take_append_of_le_length h.flushed_le]
    exact h.file_tail

theorem flushBlock_true_eq {s : Segment} (h : SegInv s) :
    s.flushBlock true = { s with
      file := s.file ++ (s.currentBlock.data
        ++ List.replicate (blockSize - s.currentBlock.data.length) 0).drop s.currentBlock.flushed,
      currentBlock := ⟨s.currentBlock.id + 1, [], 0⟩ } := by
  have h1 := h.flushed_le
  have h2 := h.data_le
  simp only [Segment.flushBlock]
  rw [if_neg (show ¬((s.currentBlock.data.drop s.currentBlock.flushed).length = 0
    ∧ true = false) by simp)]
  simp only [true_and]
  by_cases hfull : s.currentBlock.data.length < blockSize
  · rw [if_pos hfull]
    dsimp only
    rw [if_pos (show s.currentBlock.flushed + (List.drop s.currentBlock.flushed
        (s.currentBlock.data ++ List.replicate (blockSize - s.currentBlock.data.length) 0)).length
        = blockSize by
      simp only [List.length_drop, List.length_append, List.length_replicate]
      omega)]
  · rw [if_neg hfull]
    rw [if_pos (show s.currentBlock.flushed
        + (List.drop s.currentBlock.flushed s.currentBlock.data).length = blockSize by
      simp only [List.length_drop]
      omega)]
    have hz : blockSize - s.currentBlock.data.length = 0 := by omega
    rw [hz]
    simp

/-- `flushBlock true` from an invariant state: the block is padded to a
whole block, flushed, and rolled forward; the committed stream gains
only the padding zeros. -/
theorem flushBlock_true_spec {s : Segment} (h : SegInv s) :
    SegInv (s.flushBlock true) ∧
    (s.flushBlock true).currentBlock = ⟨s.currentBlock.id + 1, [], 0⟩ ∧
    vstream (s.flushBlock true) = vstream s
      ++ List.replicate (blockSize - s.currentBlock.data.length) 0 ∧
    (s.flushBlock true).file = vstream (s.flushBlock true) ∧
    (s.flushBlock true).id = s.id ∧ (s.flushBlock true).closed = s.closed ∧
    (s.flushBlock true).cachedId = s.cachedId ∧
    (s.flushBlock true).cachedData = s.cachedData := by
  obtain ⟨h1, h2, h3, h4⟩ := h
  have hfile : s.file = s.file.take (s.currentBlock.id * blockSize)
      ++ s.currentBlock.data.take s.currentBlock.flushed := by
    conv_lhs => rw [← List.take_append_drop (s.currentBlock.id * blockSize) s.file, h4]
  have htklen : (s.file.take (s.currentBlock.id * blockSize)).length
      = s.currentBlock.id * blockSize := by
    simp only [List.length_take]
    omega
  rw [flushBlock_true_eq ⟨h1, h2, h3, h4⟩]
  have hdsplit : (s.currentBlock.data
        ++ List.replicate (blockSize - s.currentBlock.data.length) 0).drop s.currentBlock.flushed
      = s.currentBlock.data.drop s.currentBlock.flushed
        ++ List.replicate (blockSize - s.currentBlock.data.length) 0 :=
    List.drop_append_of_le_length h1
  have hflen : (s.file ++ (s.currentBlock.data
        ++ List.replicate (blockSize - s.currentBlock.data.length) 0).drop
          s.currentBlock.flushed).length = (s.currentBlock.id + 1) * blockSize := by
    simp only [hdsplit, List.length_append, List.length_drop, List.length_replicate, h3,
      Nat.add_mul, one_mul]
    omega
  have hvs : s.file ++ (s.currentBlock.data
        ++ List.replicate (blockSize - s.currentBlock.data.length) 0).drop s.currentBlock.flushed
      = vstream s ++ List.replicate (blockSize - s.currentBlock.data.length) 0 := by
    rw [hdsplit, vstream]
    conv_lhs => rw [hfile]
    simp only [List.append_assoc]
    congr 1
    rw [← List.append_assoc, List.take_append_drop]
  refine ⟨⟨by simp, by simp [blockSize], ?_, ?_⟩, rfl, ?_, ?_, rfl, rfl, rfl, rfl⟩
  · rw [hflen]
    dsimp only
    simp [Nat.add_mul]
  · dsimp only
    simp only [List.take_zero]
    rw [List.drop_eq_nil_iff, hflen]
  · rw [vstream]
    dsimp only
    rw [List.append_nil, List.take_of_length_le (by rw [hflen])]
    exact hvs
  · rw [vstream]
    dsimp only
    rw [List.append_nil, List.take_of_length_le (by rw [hflen])]

theorem flushBlock_false_spec {s : Segment} (h : SegInv s) :
    SegInv (s.flushBlock false) ∧
    (s.flushBlock false).file = vstream s ∧
    vstream (s.flushBlock false) = vstream s ∧
    gpos (s.flushBlock false) = gpos s ∧
    (s.flushBlock false).id = s.id ∧ (s.flushBlock false).closed = s.closed ∧
    (s.flushBlock false).cachedId = s.cachedId ∧
    (s.flushBlock false).cachedData = s.cachedData := by
  obtain ⟨h1, h2, h3, h4⟩ := h
  have hfile : s.file = s.file.take (s.currentBlock.id * blockSize)
      ++ s.currentBlock.data.take s.currentBlock.flushed := by
    conv_lhs => rw [← List.take_append_drop (s.currentBlock.id * blockSize) s.file, h4]
  have htklen : (s.file.take (s.currentBlock.id * blockSize)).length
      = s.currentBlock.id * blockSize := by
    simp only [List.length_take]
    omega
  have hkey : s.file ++ s.currentBlock.data.drop s.currentBlock.flushed = vstream s := by
    rw [vstream]
    conv_lhs => rw [hfile]
    rw [List.append_assoc, List.take_append_drop]
  by_cases hempty : (s.currentBlock.data.drop s.currentBlock.flushed).length = 0
  · have hs : s.flushBlock false = s := by
      simp only [Segment.flushBlock]
      rw [if_pos (by simp only [hempty]; simp)]
    have hdrop : s.currentBlock.data.drop s.currentBlock.flushed = [] := by
      simp only [List.length_drop] at hempty
      rw [List.drop_eq_nil_iff]
      omega
    rw [hs]
    refine ⟨⟨h1, h2, h3, h4⟩, ?_, rfl, rfl, rfl, rfl, rfl, rfl⟩
    rw [← hkey, hdrop, List.append_nil]
  · simp only [Segment.flushBlock]
    rw [if_neg (by simp only [hempty]; simp)]
    rw [if_neg (show ¬(false = true ∧ s.currentBlock.data.length < blockSize) by simp)]
    simp only [List.length_drop] at hempty
    by_cases hroll : s.currentBlock.flushed
        + (s.currentBlock.data.drop s.currentBlock.flushed).length = blockSize
    · rw [if_pos hroll]
      simp only [List.length_drop] at hroll
      have hlen : s.currentBlock.data.length = blockSize := by omega
      have hflen : (s.file ++ s.currentBlock.data.drop s.currentBlock.flushed).length
          = (s.currentBlock.id + 1) * blockSize := by
        simp only [List.length_append, List.length_drop, h3, Nat.add_mul, one_mul]
        omega
      refine ⟨⟨by simp, by simp [blockSize], by rw [hflen]; simp, ?_⟩, hkey, ?_, ?_,
          rfl, rfl, rfl, rfl⟩
      · simp only [List.take_zero]
        rw [List.drop_eq_nil_iff, hflen]
      · rw [vstream]
        dsimp only
        rw [List.append_nil, List.take_of_length_le (by rw [hflen])]
        exact hkey
      · rw [gpos, gpos]
        dsimp only
        simp only [List.length_nil, Nat.add_mul, one_mul]
        omega
    · rw [if_neg hroll]
      simp only [List.length_drop] at hroll
      refine ⟨⟨?_, ?_, ?_, ?_⟩, hkey, ?_, ?_, rfl, rfl, rfl, rfl⟩
      · dsimp only
        simp only [List.length_drop]
        omega
      · exact h2
      · dsimp only
        simp only [List.length_append, List.length_drop, h3]
        omega
      · dsimp only
        simp only [List.length_drop]
        rw [List.drop_append_of_le_length (by omega), h4, List.take_append_drop,
          List.take_of_length_le (by omega)]
      · rw [vstream, vstream]
        dsimp only
        rw [List.take_append_of_le_length (by omega)]
      · rfl

theorem sliceEq_here' {f bytes : List Nat} :
    sliceEq (f ++ bytes) f.length bytes := by
  have h : sliceEq (f ++ bytes ++ []) f.length bytes := sliceEq_here []
  simpa using h

theorem writeLoop_nil (s : Segment) (acc : Option Position) :
    s.writeLoop [] acc = (acc, s) := rfl

/-- Appending a run of fresh-block chunks (every chunk but the last
exactly fills a block) from a state whose current block buffer is
empty: each chunk lands at offset 0 of consecutive blocks and the
committed stream grows by exactly the chunk framings. -/
theorem writeLoop_tail : ∀ (cs : List Chunk) (s : Segment) (acc : Option Position),
    SegInv s → s.currentBlock.data = [] → cs ≠ [] → TailSizes cs →
    ∃ s', s.writeLoop cs acc
        = (some (acc.getD ⟨s.id, s.currentBlock.id, 0⟩), s') ∧
      SegInv s' ∧ s'.id = s.id ∧ s'.closed = s.closed ∧
      s'.cachedId = s.cachedId ∧ s'.cachedData = s.cachedData ∧
      vstream s' = vstream s ++ chunksBytes cs ∧
      LocatedFrom (vstream s') s.currentBlock.id 0 cs
  | [], _, _, _, _, hne, _ => absurd rfl hne
  | c :: rest, s, acc, hinv, hdata, _, hts => by
    have hB : blockSize = 32768 := rfl
    have hH : chunkHeaderSize = 7 := rfl
    have hfit : c.data.length ≤ blockSize - chunkHeaderSize :=
      TailSizes_max_len _ hts c (by simp)
    have hguard : ¬ blockSize < s.currentBlock.data.length + chunkHeaderSize + c.data.length := by
      rw [hdata]
      simp only [List.length_nil]
      omega
    have hb0 : s.currentBlock.data.length = 0 := by rw [hdata]; rfl
    have hpos : (s.writeChunk c.data c.chunkType).1 = ⟨s.id, s.currentBlock.id, 0⟩ := by
      rw [writeChunk_fst, hb0]
    have hinv2 : SegInv (s.writeChunk c.data c.chunkType).2 :=
      SegInv_writeChunk hinv _ _ (by omega)
    have hvs2 : vstream (s.writeChunk c.data c.chunkType).2 = vstream s ++ chunkBytes c :=
      vstream_writeChunk s c.data c.chunkType
    have hid2 : (s.writeChunk c.data c.chunkType).2.id = s.id := by rw [writeChunk_snd]
    have hcb2 : (s.writeChunk c.data c.chunkType).2.currentBlock.id = s.currentBlock.id := by
      rw [writeChunk_snd]
    have hdata2 : (s.writeChunk c.data c.chunkType).2.currentBlock.data = chunkBytes c := by
      rw [writeChunk_snd]
      dsimp only
      rw [hdata, List.nil_append]
    have hcl2 : (s.writeChunk c.data c.chunkType).2.closed = s.closed := by rw [writeChunk_snd]
    have hci2 : (s.writeChunk c.data c.chunkType).2.cachedId = s.cachedId := by
      rw [writeChunk_snd]
    have hcd2 : (s.writeChunk c.data c.chunkType).2.cachedData = s.cachedData := by
      rw [writeChunk_snd]
    have hvslen : (vstream s).length = s.currentBlock.id * blockSize := by
      rw [vstream_length hinv, gpos, hb0]
      omega
    have hstep : s.writeLoop (c :: rest) acc
        = (s.writeChunk c.data c.chunkType).2.writeLoop rest
          (some (acc.getD ⟨s.id, s.currentBlock.id, 0⟩)) := by
      simp only [Segment.writeLoop]
      rw [if_neg hguard, hpos]
    cases rest with
    | nil =>
      refine ⟨(s.writeChunk c.data c.chunkType).2, ?_, hinv2, hid2, hcl2, hci2, hcd2, ?_, ?_⟩
      · rw [hstep, writeLoop_nil]
      · rw [hvs2]
        simp [chunksBytes]
      · refine ⟨by omega, ?_, Or.inl rfl⟩
        rw [hvs2, ← hvslen, Nat.add_zero]
        exact sliceEq_here'
    | cons r rs =>
      have hlen : c.data.length = blockSize - chunkHeaderSize := hts.1
      have hts' : TailSizes (r :: rs) := hts.2
      have hs2len : (s.writeChunk c.data c.chunkType).2.currentBlock.data.length = blockSize := by
        rw [hdata2, chunkBytes_length, hlen]
        omega
      have hr1 : 1 ≤ r.data.length := TailSizes_min_len _ hts' r (by simp)
      have hrB : r.data.length ≤ blockSize - chunkHeaderSize :=
        TailSizes_max_len _ hts' r (by simp)
      have hspec3 := flushBlock_true_spec hinv2
      have hcb3 : ((s.writeChunk c.data c.chunkType).2.flushBlock true).currentBlock.data = [] := by
        rw [hspec3.2.1]
      have hcb3id : ((s.writeChunk c.data c.chunkType).2.flushBlock true).currentBlock.id
          = s.currentBlock.id + 1 := by
        rw [hspec3.2.1, hcb2]
      have hvs3 : vstream ((s.writeChunk c.data c.chunkType).2.flushBlock true)
          = vstream s ++ chunkBytes c := by
        rw [hspec3.2.2.1, hs2len, Nat.sub_self, List.replicate_zero, List.append_nil, hvs2]
      have heq : (s.writeChunk c.data c.chunkType).2.writeLoop (r :: rs)
            (some (acc.getD ⟨s.id, s.currentBlock.id, 0⟩))
          = ((s.writeChunk c.data c.chunkType).2.flushBlock true).writeLoop (r :: rs)
            (some (acc.getD ⟨s.id, s.currentBlock.id, 0⟩)) := by
        conv_lhs => simp only [Segment.writeLoop]
        conv_rhs => simp only [Segment.writeLoop]
        rw [if_pos (by rw [hs2len]; omega), if_neg (by rw [hcb3]; simp only [List.length_nil]; omega)]
      obtain ⟨s', hloop, hinv', hid', hcl', hci', hcd', hvs', hloc'⟩ :=
        writeLoop_tail (r :: rs) ((s.writeChunk c.data c.chunkType).2.flushBlock true)
          (some (acc.getD ⟨s.id, s.currentBlock.id, 0⟩)) hspec3.1 hcb3 (by simp) hts'
      refine ⟨s', ?_, hinv', ?_, ?_, ?_, ?_, ?_, ?_⟩
      · rw [hstep, heq, hloop, Option.getD_some]
      · rw [hid', hspec3.2.2.2.2.1, hid2]
      · rw [hcl', hspec3.2.2.2.2.2.1, hcl2]
      · rw [hci', hspec3.2.2.2.2.2.2.1, hci2]
      · rw [hcd', hspec3.2.2.2.2.2.2.2, hcd2]
      · rw [hvs', hvs3]
        simp [chunksBytes, List.append_assoc]
      · have hvsfin : vstream s' = (vstream s ++ chunkBytes c) ++ chunksBytes (r :: rs) := by
          rw [hvs', hvs3]
        refine ⟨by omega, ?_, Or.inr ⟨by omega, ?_⟩⟩
        · rw [hvsfin, ← hvslen, Nat.add_zero]
          exact sliceEq_append_right sliceEq_here' _
        · rw [← hcb3id]
          exact hloc'

theorem writeLoop_cons_eq (s : Segment) (c : Chunk) (rest : List Chunk) (acc : Option Position) :
    s.writeLoop (c :: rest) acc
      = ((if blockSize < s.currentBlock.data.length + chunkHeaderSize + c.data.length
            then s.flushBlock true else s).writeChunk c.data c.chunkType).2.writeLoop rest
          (some (acc.getD ((if blockSize < s.currentBlock.data.length + chunkHeaderSize
              + c.data.length then s.flushBlock true else s).writeChunk c.data
              c.chunkType).1)) := rfl

theorem mem_payloads {cs : List Chunk} {c : Chunk} (hc : c ∈ cs) {x : Nat}
    (hx : x ∈ c.data) : x ∈ payloads cs := by
  simp only [payloads, List.mem_flatten]
  exact ⟨c.data, List.mem_map_of_mem Chunk.data hc, hx⟩

/-- The effect of a successful `Segment.Write` of a non-empty entry on
an invariant state: it returns the position of the entry's first chunk,
preserves the invariant, the id, the closed flag and the read cache,
strictly advances the committed stream past the returned position, and
lays the chunks of `splitIntoChunks` out contiguously from that
position. -/
theorem SegWrite_spec (s : Segment) (data : List Nat) (hinv : SegInv s)
    (hcl : s.closed = false) (hne : data ≠ []) :
    ∃ p s', s.Write data = .ok (some p, s') ∧
      p.segmentId = s.id ∧ p.offset < blockSize ∧
      SegInv s' ∧ s'.id = s.id ∧ s'.closed = s.closed ∧
      s'.cachedId = s.cachedId ∧ s'.cachedData = s.cachedData ∧
      s.currentBlock.id ≤ p.blockId ∧
      gpos s ≤ p.blockId * blockSize + p.offset ∧
      p.blockId * blockSize + p.offset < gpos s' ∧
      ChunkSeq true (s.splitIntoChunks data) ∧
      payloads (s.splitIntoChunks data) = data ∧
      s.splitIntoChunks data ≠ [] ∧
      (∀ c ∈ s.splitIntoChunks data,
        1 ≤ c.data.length ∧ c.data.length ≤ blockSize - chunkHeaderSize) ∧
      LocatedFrom (vstream s') p.blockId p.offset (s.splitIntoChunks data) := by
  have hB : blockSize = 32768 := rfl
  have hH : chunkHeaderSize = 7 := rfl
  have hdata1 : 1 ≤ data.length := by
    cases data with
    | nil => exact absurd rfl hne
    | cons _ _ => simp
  have hwr : s.Write data = .ok (s.writeLoop (s.splitIntoChunks data) none) := by
    rw [Segment.Write, if_neg (by rw [hcl]; simp)]
  have hvslen : (vstream s).length = gpos s := vstream_length hinv
  rcases splitIntoChunks_cases s data hne with
      ⟨hguard, hfits, hcs⟩ | ⟨hguard, hbig, rest, hcs, hrne, hts, hseq, hpay⟩ |
      ⟨hguard, hcsne, hts, hseq, hpay⟩
  · -- case A1: a single FULL chunk into the current block
    refine ⟨⟨s.id, s.currentBlock.id, s.currentBlock.data.length⟩,
      (s.writeChunk data kFullType).2, ?_, rfl, by dsimp only; omega, ?_, ?_, ?_, ?_, ?_,
      le_refl _, le_of_eq rfl, ?_, ?_, ?_, ?_, ?_, ?_⟩
    · rw [hwr, hcs, writeLoop_cons_eq]
      rw [if_neg (show ¬ blockSize < s.currentBlock.data.length + chunkHeaderSize
        + (Chunk.mk data kFullType).data.length by dsimp only; omega)]
      rw [writeLoop_nil, Option.getD_none, writeChunk_fst]
    · exact SegInv_writeChunk hinv _ _ (by omega)
    · rw [writeChunk_snd]
    · rw [writeChunk_snd, hcl]
    · rw [writeChunk_snd]
    · rw [writeChunk_snd]
    · rw [gpos, writeChunk_snd]
      dsimp only
      simp only [List.length_append, chunkBytes_length]
      omega
    · rw [hcs]
      simp [ChunkSeq]
    · rw [hcs]
      simp [payloads]
    · rw [hcs]
      simp
    · rw [hcs]
      intro c hc
      rw [List.mem_singleton.mp hc]
      constructor
      · exact hdata1
      · dsimp only
        omega
    · rw [hcs]
      refine ⟨by dsimp only; omega, ?_, Or.inl rfl⟩
      rw [vstream_writeChunk, show s.currentBlock.id * blockSize
          + s.currentBlock.data.length = (vstream s).length by rw [hvslen, gpos]]
      exact sliceEq_here'
  · -- case A2: FIRST chunk fills the block, the tail goes to fresh blocks
    obtain ⟨r, rs, rfl⟩ : ∃ r rs, rest = r :: rs := by
      cases rest with
      | nil => exact absurd rfl hrne
      | cons r rs => exact ⟨r, rs, rfl⟩
    have hsp1 : 1 ≤ blockSize - s.currentBlock.data.length - chunkHeaderSize := by omega
    have htklen : (data.take (blockSize - s.currentBlock.data.length - chunkHeaderSize)).length
        = blockSize - s.currentBlock.data.length - chunkHeaderSize := by
      simp only [List.length_take]
      omega
    have hinv2 : SegInv (s.writeChunk
        (data.take (blockSize - s.currentBlock.data.length - chunkHeaderSize)) kFirstType).2 :=
      SegInv_writeChunk hinv _ _ (by rw [htklen]; omega)
    have hs2id : (s.writeChunk
        (data.take (blockSize - s.currentBlock.data.length - chunkHeaderSize))
          kFirstType).2.currentBlock.id = s.currentBlock.id := by
      rw [writeChunk_snd]
    have hs2len : (s.writeChunk
        (data.take (blockSize - s.currentBlock.data.length - chunkHeaderSize))
          kFirstType).2.currentBlock.data.length = blockSize := by
      rw [writeChunk_snd]
      dsimp only
      simp only [List.length_append, chunkBytes_length]
      rw [htklen]
      omega
    have hspec3 := flushBlock_true_spec hinv2
    have hr1 : 1 ≤ r.data.length := TailSizes_min_len _ hts r (by simp)
    have hrB : r.data.length ≤ blockSize - chunkHeaderSize :=
      TailSizes_max_len _ hts r (by simp)
    have hvs3 : vstream ((s.writeChunk
          (data.take (blockSize - s.currentBlock.data.length - chunkHeaderSize))
            kFirstType).2.flushBlock true)
        = vstream s ++ chunkBytes ⟨data.take
            (blockSize - s.currentBlock.data.length - chunkHeaderSize), kFirstType⟩ := by
      rw [hspec3.2.2.1, hs2len, Nat.sub_self, List.replicate_zero, List.append_nil,
        vstream_writeChunk]
    obtain ⟨s', hloop, hinv', hid', hcl', hci', hcd', hvs', hloc'⟩ :=
      writeLoop_tail (r :: rs)
        ((s.writeChunk (data.take (blockSize - s.currentBlock.data.length - chunkHeaderSize))
          kFirstType).2.flushBlock true)
        (some ⟨s.id, s.currentBlock.id, s.currentBlock.data.length⟩)
        hspec3.1 (by rw [hspec3.2.1]) (by simp) hts
    have hvsfin : vstream s' = (vstream s ++ chunkBytes ⟨data.take
          (blockSize - s.currentBlock.data.length - chunkHeaderSize), kFirstType⟩)
        ++ chunksBytes (r :: rs) := by
      rw [hvs', hvs3]
    refine ⟨⟨s.id, s.currentBlock.id, s.currentBlock.data.length⟩, s', ?_, rfl,
      by dsimp only; omega,
      hinv', ?_, ?_, ?_, ?_, le_refl _, by dsimp only [gpos]; exact le_refl _,
      ?_, ?_, ?_, ?_, ?_, ?_⟩
    · rw [hwr, hcs, writeLoop_cons_eq]
      rw [if_neg (show ¬ blockSize < s.currentBlock.data.length + chunkHeaderSize
        + (Chunk.mk (data.take (blockSize - s.currentBlock.data.length - chunkHeaderSize))
            kFirstType).data.length by dsimp only; rw [htklen]; omega)]
      rw [Option.getD_none, writeChunk_fst]
      rw [writeLoop_cons_eq]
      rw [if_pos (show blockSize < (s.writeChunk (data.take
          (blockSize - s.currentBlock.data.length - chunkHeaderSize))
            kFirstType).2.currentBlock.data.length + chunkHeaderSize + r.data.length by
        rw [hs2len]; omega)]
      rw [writeLoop_cons_eq] at hloop
      rw [if_neg (show ¬ blockSize < ((s.writeChunk (data.take
          (blockSize - s.currentBlock.data.length - chunkHeaderSize))
            kFirstType).2.flushBlock true).currentBlock.data.length + chunkHeaderSize
          + r.data.length by
        rw [hspec3.2.1]; simp only [List.length_nil]; omega)] at hloop
      rw [hloop, Option.getD_some]
    · rw [hid', hspec3.2.2.2.2.1, writeChunk_snd]
    · rw [hcl', hspec3.2.2.2.2.2.1, writeChunk_snd]
    · rw [hci', hspec3.2.2.2.2.2.2.1, writeChunk_snd]
    · rw [hcd', hspec3.2.2.2.2.2.2.2, writeChunk_snd]
    · rw [show gpos s' = (vstream s').length from (vstream_length hinv').symm, hvsfin]
      simp only [List.length_append, chunkBytes_length, hvslen, gpos]
      rw [htklen]
      omega
    · rw [hcs]
      exact ⟨by simp, hseq⟩
    · rw [hcs]
      simp only [payloads, List.map_cons, List.flatten_cons]
      simp only [payloads, List.map_cons, List.flatten_cons] at hpay
      rw [hpay, List.take_append_drop]
    · rw [hcs]
      simp
    · rw [hcs]
      intro c hc
      rcases List.mem_cons.mp hc with rfl | hc
      · rw [htklen]
        exact ⟨by omega, by omega⟩
      · exact ⟨TailSizes_min_len _ hts c hc, TailSizes_max_len _ hts c hc⟩
    · rw [hcs]
      refine ⟨by dsimp only; rw [htklen]; omega, ?_, Or.inr ⟨by dsimp only; rw [htklen]; omega, ?_⟩⟩
      · rw [hvsfin, show s.currentBlock.id * blockSize
            + s.currentBlock.data.length = (vstream s).length by rw [hvslen, gpos]]
        exact sliceEq_append_right sliceEq_here' _
      · rw [show s.currentBlock.id + 1 = ((s.writeChunk (data.take
            (blockSize - s.currentBlock.data.length - chunkHeaderSize))
              kFirstType).2.flushBlock true).currentBlock.id by rw [hspec3.2.1, hs2id]]
        exact hloc'
  · -- case B: fewer than 8 free bytes, everything goes to fresh blocks
    obtain ⟨c, cs', hcseq⟩ : ∃ c cs', s.splitIntoChunks data = c :: cs' := by
      cases hx : s.splitIntoChunks data with
      | nil => exact absurd hx hcsne
      | cons c cs' => exact ⟨c, cs', rfl⟩
    have hc1 : 1 ≤ c.data.length := TailSizes_min_len _ (hcseq ▸ hts) c (by simp)
    have hcB : c.data.length ≤ blockSize - chunkHeaderSize :=
      TailSizes_max_len _ (hcseq ▸ hts) c (by simp)
    have hspec3 := flushBlock_true_spec hinv
    obtain ⟨s', hloop, hinv', hid', hcl', hci', hcd', hvs', hloc'⟩ :=
      writeLoop_tail (c :: cs') (s.flushBlock true) none
        hspec3.1 (by rw [hspec3.2.1]) (by simp) (hcseq ▸ hts)
    have hs3id : (s.flushBlock true).id = s.id := hspec3.2.2.2.2.1
    have hs3cb : (s.flushBlock true).currentBlock.id = s.currentBlock.id + 1 := by
      rw [hspec3.2.1]
    have hvs3len : (vstream (s.flushBlock true)).length
        = (s.currentBlock.id + 1) * blockSize := by
      rw [vstream_length hspec3.1, gpos, hspec3.2.1]
      simp
    refine ⟨⟨s.id, s.currentBlock.id + 1, 0⟩, s', ?_, rfl, by dsimp only; omega, hinv',
      ?_, ?_, ?_, ?_, by dsimp only; omega, ?_, ?_, ?_, ?_, ?_, ?_, ?_⟩
    · rw [hwr, hcseq, writeLoop_cons_eq]
      rw [if_pos (show blockSize < s.currentBlock.data.length + chunkHeaderSize
        + c.data.length by omega)]
      rw [writeLoop_cons_eq] at hloop
      rw [if_neg (show ¬ blockSize < (s.flushBlock true).currentBlock.data.length
          + chunkHeaderSize + c.data.length by
        rw [hspec3.2.1]; simp only [List.length_nil]; omega)] at hloop
      rw [hloop, Option.getD_none, hs3id, hs3cb]
    · rw [hid', hs3id]
    · rw [hcl', hspec3.2.2.2.2.2.1]
    · rw [hci', hspec3.2.2.2.2.2.2.1]
    · rw [hcd', hspec3.2.2.2.2.2.2.2]
    · rw [gpos]
      have := hinv.data_le
      simp only [Nat.add_mul, one_mul, Nat.add_zero]
      omega
    · rw [show gpos s' = (vstream s').length from (vstream_length hinv').symm, hvs',
        List.length_append, hvs3len]
      have : 1 ≤ (chunksBytes (c :: cs')).length := by
        simp only [chunksBytes, List.map_cons, List.flatten_cons, List.length_append,
          chunkBytes_length]
        omega
      simp only [Nat.add_mul, one_mul, Nat.add_zero]
      omega
    · rw [hcseq]
      exact hcseq ▸ hseq
    · exact hpay
    · exact hcsne
    · intro cx hcx
      exact ⟨TailSizes_min_len _ hts cx hcx, TailSizes_max_len _ hts cx hcx⟩
    · rw [hcseq]
      rw [show s.currentBlock.id + 1 = (s.flushBlock true).currentBlock.id from hs3cb.symm]
      exact hcseq ▸ hloc'

/-! ## Read-side machinery -/

/-- `getD` through `drop`. -/
theorem getD_drop (l : List Nat) (i j d : Nat) :
    (l.drop i).getD j d = l.getD (i + j) d := by
  simp [List.getD_eq_getElem?_getD, List.getElem?_drop]

/-- `getD` through `take`, below the cut. -/
theorem getD_take (l : List Nat) {n i : Nat} (d : Nat) (h : i < n) :
    (l.take n).getD i d = l.getD i d := by
  simp [List.getD_eq_getElem?_getD, List.getElem?_take, h]

/-- One CRC bit step keeps the state below `2^32`. -/
theorem crcStep_lt {c : Nat} (h : c < 2 ^ 32) : crcStep c < 2 ^ 32 := by
  have h1 : c >>> 1 < 2 ^ 32 := by
    rw [Nat.shiftRight_eq_div_pow]
    omega
  rw [crcStep]
  split
  · exact Nat.xor_lt_two_pow h1 (by norm_num [crcPoly])
  · exact h1

/-- One CRC byte step keeps the state below `2^32`. -/
theorem crcStep8_lt {c : Nat} (h : c < 2 ^ 32) : crcStep8 c < 2 ^ 32 := by
  rw [crcStep8]
  exact crcStep_lt (crcStep_lt (crcStep_lt (crcStep_lt
    (crcStep_lt (crcStep_lt (crcStep_lt (crcStep_lt h)))))))

/-- The CRC fold over bytes keeps the state below `2^32`. -/
theorem crcFold_lt : ∀ (data : List Nat) {a : Nat}, a < 2 ^ 32 →
    (∀ x ∈ data, x < 256) → data.foldl crcUpdate a < 2 ^ 32
  | [], _, ha, _ => ha
  | b :: rest, a, ha, hb => by
    simp only [List.foldl_cons]
    refine crcFold_lt rest ?_ (fun x hx => hb x (by simp [hx]))
    rw [crcUpdate]
    exact crcStep8_lt (Nat.xor_lt_two_pow ha
      (lt_trans (hb b (by simp)) (by norm_num)))

/-- `crc32` of a byte list is a `u32`. -/
theorem crc32_lt {data : List Nat} (h : ∀ x ∈ data, x < 256) :
    crc32 data < 2 ^ 32 := by
  rw [crc32]
  exact Nat.xor_lt_two_pow (by norm_num) (crcFold_lt data (by norm_num) h)

/-- A cache-missing `readBlock` inside the file succeeds, returns a
whole block agreeing with the file where the file extends, and caches
it. -/
theorem readBlock_found {s : Segment} (b : Nat) (hcl : s.closed = false)
    (hmiss : s.cachedId ≠ some b) (hin : b * blockSize < s.file.length)
    (hcd : s.cachedData.length = blockSize) :
    ∃ bd, s.readBlock b =
        (.ok bd, { s with cachedId := some b, cachedData := bd }) ∧
      bd.length = blockSize ∧
      ∀ j, b * blockSize + j < s.file.length → j < blockSize →
        bd.getD j 0 = s.file.getD (b * blockSize + j) 0 := by
  refine ⟨(s.file.drop (b * blockSize)).take
      (min blockSize (s.file.length - b * blockSize))
      ++ s.cachedData.drop (min blockSize (s.file.length - b * blockSize)),
    ?_, ?_, ?_⟩
  · simp only [Segment.readBlock]
    rw [if_neg (by rw [hcl]; simp), if_neg hmiss, if_neg (by omega)]
  · simp only [List.length_append, List.length_take, List.length_drop, hcd]
    omega
  · intro j hj1 hj2
    have hjav : j < min blockSize (s.file.length - b * blockSize) := by omega
    rw [List.getD_append _ _ _ _
      (by simp only [List.length_take, List.length_drop]; omega)]
    rw [getD_take _ _ hjav, getD_drop]

/-- Parsing at offset `o` of a block whose bytes agree with the file,
when the file carries a chunk's framing there, recovers the chunk. -/
theorem readChunk_spec {f bd : List Nat} {b o : Nat} {c : Chunk}
    (hbd : bd.length = blockSize)
    (hag : ∀ j, b * blockSize + j < f.length → j < blockSize →
      bd.getD j 0 = f.getD (b * blockSize + j) 0)
    (hsl : sliceEq f (b * blockSize + o) (chunkBytes c))
    (hfit : o + chunkHeaderSize + c.data.length ≤ blockSize)
    (hbytes : ∀ x ∈ c.data, x < 256) :
    readChunk (bd.drop o) = .ok ⟨c.data, c.chunkType⟩ := by
  obtain ⟨hslen, hget⟩ := hsl
  rw [chunkBytes_length] at hslen
  have hB : blockSize = 32768 := rfl
  have hH : chunkHeaderSize = 7 := rfl
  have hbyte : ∀ i, i < chunkHeaderSize + c.data.length →
      bd.getD (o + i) 0 = (chunkBytes c).getD i 0 := by
    intro i hi
    rw [hag (o + i) (by omega) (by omega), ← Nat.add_assoc]
    exact hget i (by rw [chunkBytes_length]; omega)
  have hex : chunkBytes c =
      crc32 c.data % 256 :: crc32 c.data / 256 % 256 ::
      crc32 c.data / 65536 % 256 :: crc32 c.data / 16777216 % 256 ::
      c.data.length % 256 :: c.data.length / 256 % 256 ::
      c.chunkType :: c.data := by
    simp [chunkBytes, putUint32LE, putUint16LE]
  have hdlen : (bd.drop o).length = blockSize - o := by
    simp [hbd]
  have hcrc : getUint32LE (bd.drop o) = crc32 c.data := by
    have h1 : getUint32LE (bd.drop o) = getUint32LE (chunkBytes c) := by
      have hb0 := hbyte 0 (by omega)
      rw [Nat.add_zero] at hb0
      simp only [getUint32LE, getD_drop, Nat.add_zero]
      rw [hb0, hbyte 1 (by omega), hbyte 2 (by omega), hbyte 3 (by omega)]
    have h2 : getUint32LE (chunkBytes c)
        = getUint32LE (putUint32LE (crc32 c.data)) := by
      rw [hex]
      simp [getUint32LE, putUint32LE]
    rw [h1, h2, getUint32LE_putUint32LE _ (crc32_lt hbytes)]
  have hlen16 : getUint16LE ((bd.drop o).drop 4) = c.data.length := by
    have h1 : getUint16LE ((bd.drop o).drop 4)
        = getUint16LE (putUint16LE c.data.length) := by
      simp only [getUint16LE, getD_drop, Nat.add_zero, Nat.reduceAdd]
      rw [hbyte 4 (by omega), hbyte 5 (by omega)]
      rw [hex]
      simp [putUint16LE]
    rw [h1, getUint16LE_putUint16LE _ (by omega)]
  have h6 : (bd.drop o).getD 6 0 = c.chunkType := by
    rw [getD_drop, hbyte 6 (by omega), hex]
    simp
  have hdata : ((bd.drop o).drop chunkHeaderSize).take c.data.length
      = c.data := by
    have hlens : (((bd.drop o).drop chunkHeaderSize).take c.data.length).length
        = c.data.length := by
      simp only [List.length_take, List.length_drop, hbd]
      omega
    refine List.ext_getElem hlens ?_
    intro i h1 h2
    have hgd : (((bd.drop o).drop chunkHeaderSize).take c.data.length).getD i 0
        = c.data.getD i 0 := by
      rw [getD_take _ _ (by rw [hlens] at h1; exact h1), getD_drop, getD_drop]
      have h3 := hbyte (chunkHeaderSize + i) (by rw [hlens] at h1; omega)
      rw [h3, hex, hH]
      have h4 : (7 : Nat) + i = i + 1 + 1 + 1 + 1 + 1 + 1 + 1 := by omega
      rw [h4]
      simp only [List.getD_cons_succ]
    rw [← List.getD_eq_getElem _ 0 h1, ← List.getD_eq_getElem _ 0 h2]
    exact hgd
  simp only [readChunk]
  rw [hdlen, hlen16, hdata, hcrc, h6]
  rw [if_neg (show ¬ blockSize - o < chunkHeaderSize by omega),
    if_neg (show ¬ blockSize - o < c.data.length + chunkHeaderSize by omega),
    if_pos rfl]

/-- Payload concatenation, one chunk at a time. -/
theorem payloads_cons (c : Chunk) (cs : List Chunk) :
    payloads (c :: cs) = c.data ++ payloads cs := by
  simp [payloads]

/-- A laid-out nonempty chunk list spans at most one block per chunk,
so its length is bounded by the file's block count. -/
theorem LocatedFrom_length {f : List Nat} :
    ∀ (cs : List Chunk) (b o : Nat), cs ≠ [] → LocatedFrom f b o cs →
      b + cs.length ≤ f.length / blockSize + 1
  | [], _, _, hne, _ => absurd rfl hne
  | [c], b, o, _, hloc => by
    obtain ⟨_, hsl, _⟩ := hloc
    have h1 := hsl.1
    rw [chunkBytes_length] at h1
    have hb : b ≤ f.length / blockSize := by
      refine (Nat.le_div_iff_mul_le (by norm_num [blockSize])).mpr ?_
      have hH : chunkHeaderSize = 7 := rfl
      omega
    simp only [List.length_cons, List.length_nil]
    omega
  | c :: c' :: cs', b, o, _, hloc => by
    obtain ⟨_, _, hrest⟩ := hloc
    obtain ⟨_, hloc'⟩ := hrest.resolve_left (by simp)
    have := LocatedFrom_length (c' :: cs') (b + 1) 0 (by simp) hloc'
    simp only [List.length_cons] at this ⊢
    omega

/-- Walking the read loop along a laid-out, well-typed chunk sequence
returns the accumulated entry: every block is fetched fresh (the cache
never holds the first target block), every chunk parses back exactly,
and the loop advances block by block until the `LAST`/`FULL` chunk. -/
theorem readLoop_spec :
    ∀ (cs : List Chunk) (s : Segment) (b o : Nat) (entry : List Nat)
      (fuel : Nat),
    s.closed = false →
    s.cachedData.length = blockSize →
    s.cachedId ≠ some b →
    cs ≠ [] →
    cs.length ≤ fuel →
    LocatedFrom s.file b o cs →
    ChunkSeq entry.isEmpty cs →
    (∀ c ∈ cs, 1 ≤ c.data.length) →
    (∀ c ∈ cs, ∀ x ∈ c.data, x < 256) →
    (s.readLoop b o entry fuel).1 = .ok (entry ++ payloads cs) := by
  intro cs
  induction cs with
  | nil => intro s b o entry fuel _ _ _ hne; exact absurd rfl hne
  | cons c rest ih =>
    intro s b o entry fuel hcl hcdl hmiss _ hfuel hloc hseq h1 hbytes
    cases fuel with
    | zero => simp at hfuel
    | succ fu =>
      obtain ⟨hfit, hsl, hrest⟩ := hloc
      have hB : blockSize = 32768 := rfl
      have hH : chunkHeaderSize = 7 := rfl
      have hlen1 : 1 ≤ c.data.length := h1 c (by simp)
      have hcne : c.data ≠ [] := by
        intro h2
        rw [h2] at hlen1
        simp at hlen1
      have hin : b * blockSize < s.file.length := by
        have h := hsl.1
        rw [chunkBytes_length] at h
        omega
      obtain ⟨bd, hrb, hbdlen, hag⟩ := readBlock_found b hcl hmiss hin hcdl
      have hchk := readChunk_spec hbdlen hag hsl hfit (hbytes c (by simp))
      simp only [Segment.readLoop]
      rw [hrb]
      dsimp only
      rw [if_neg (show ¬ bd.length ≤ o by rw [hbdlen]; omega)]
      rw [hchk]
      dsimp only
      rw [if_neg (show ¬ c.data.length = 0 by omega)]
      cases rest with
      | nil =>
        have hct : c.chunkType = if entry.isEmpty then kFullType else kLastType :=
          hseq
        by_cases hent : entry = []
        · have hct' : c.chunkType = kFullType := by
            rw [hct, hent, List.isEmpty_nil, if_pos rfl]
          rw [if_neg (show ¬ (entry.length = 0 ∧
              ¬(c.chunkType = kFullType ∨ c.chunkType = kFirstType)) from
            fun h => h.2 (Or.inl hct'))]
          rw [if_neg (show ¬ (entry.length ≠ 0 ∧
              ¬(c.chunkType = kMiddleType ∨ c.chunkType = kLastType)) from
            fun h => h.1 (by rw [hent]; rfl))]
          rw [if_pos (Or.inr hct')]
          rw [payloads_cons]
          simp [payloads]
        · have hct' : c.chunkType = kLastType := by
            rw [hct, List.isEmpty_eq_false.mpr hent]
            rfl
          rw [if_neg (show ¬ (entry.length = 0 ∧
              ¬(c.chunkType = kFullType ∨ c.chunkType = kFirstType)) from
            fun h => hent (List.length_eq_zero.mp h.1))]
          rw [if_neg (show ¬ (entry.length ≠ 0 ∧
              ¬(c.chunkType = kMiddleType ∨ c.chunkType = kLastType)) from
            fun h => h.2 (Or.inr hct'))]
          rw [if_pos (Or.inl hct')]
          rw [payloads_cons]
          simp [payloads]
      | cons r rs =>
        obtain ⟨hbound, hlocr⟩ := hrest.resolve_left (by simp)
        obtain ⟨hct, hseqr⟩ :
            c.chunkType = (if entry.isEmpty then kFirstType else kMiddleType) ∧
              ChunkSeq false (r :: rs) := hseq
        by_cases hent : entry = []
        · have hct' : c.chunkType = kFirstType := by
            rw [hct, hent, List.isEmpty_nil, if_pos rfl]
          rw [if_neg (show ¬ (entry.length = 0 ∧
              ¬(c.chunkType = kFullType ∨ c.chunkType = kFirstType)) from
            fun h => h.2 (Or.inr hct'))]
          rw [if_neg (show ¬ (entry.length ≠ 0 ∧
              ¬(c.chunkType = kMiddleType ∨ c.chunkType = kLastType)) from
            fun h => h.1 (by rw [hent]; rfl))]
          rw [if_neg (show ¬(c.chunkType = kLastType ∨ c.chunkType = kFullType) by
            rw [hct']; decide)]
          rw [if_pos (show bd.length ≤ o + chunkHeaderSize + c.data.length by
            rw [hbdlen]; omega)]
          have hkemp : (entry ++ c.data).isEmpty = false :=
            List.isEmpty_eq_false.mpr (fun hx => hcne (List.append_eq_nil.mp hx).2)
          have hrec := ih { s with cachedId := some b, cachedData := bd }
            (b + 1) 0 (entry ++ c.data) fu hcl hbdlen
            (by intro hx; exact absurd (Option.some.inj hx) (by omega))
            (by simp)
            (by simp only [List.length_cons] at hfuel ⊢; omega)
            hlocr
            (by rw [hkemp]; exact hseqr)
            (fun c' hc' => h1 c' (by simp [hc']))
            (fun c' hc' x hx => hbytes c' (by simp [hc']) x hx)
          rw [hrec]
          simp only [payloads_cons, List.append_assoc]
        · have hct' : c.chunkType = kMiddleType := by
            rw [hct, List.isEmpty_eq_false.mpr hent]
            rfl
          rw [if_neg (show ¬ (entry.length = 0 ∧
              ¬(c.chunkType = kFullType ∨ c.chunkType = kFirstType)) from
            fun h => hent (List.length_eq_zero.mp h.1))]
          rw [if_neg (show ¬ (entry.length ≠ 0 ∧
              ¬(c.chunkType = kMiddleType ∨ c.chunkType = kLastType)) from
            fun h => h.2 (Or.inl hct'))]
          rw [if_neg (show ¬(c.chunkType = kLastType ∨ c.chunkType = kFullType) by
            rw [hct']; decide)]
          rw [if_pos (show bd.length ≤ o + chunkHeaderSize + c.data.length by
            rw [hbdlen]; omega)]
          have hkemp : (entry ++ c.data).isEmpty = false :=
            List.isEmpty_eq_false.mpr (fun hx => hcne (List.append_eq_nil.mp hx).2)
          have hrec := ih { s with cachedId := some b, cachedData := bd }
            (b + 1) 0 (entry ++ c.data) fu hcl hbdlen
            (by intro hx; exact absurd (Option.some.inj hx) (by omega))
            (by simp)
            (by simp only [List.length_cons] at hfuel ⊢; omega)
            hlocr
            (by rw [hkemp]; exact hseqr)
            (fun c' hc' => h1 c' (by simp [hc']))
            (fun c' hc' x hx => hbytes c' (by simp [hc']) x hx)
          rw [hrec]
          simp only [payloads_cons, List.append_assoc]

/-- Every chunk of a laid-out list sits entirely inside one block: its
framing occurs verbatim at an in-block offset `o` with
`o + 7 + payload ≤ blockSize`. -/
theorem LocatedFrom_mem_fits {f : List Nat} :
    ∀ (cs : List Chunk) (b o : Nat), LocatedFrom f b o cs →
      ∀ c ∈ cs, ∃ b' o', o' + chunkHeaderSize + c.data.length ≤ blockSize ∧
        sliceEq f (b' * blockSize + o') (chunkBytes c)
  | [], _, _, _, _, hc => absurd hc (List.not_mem_nil _)
  | c0 :: rest, b, o, hloc, c, hc => by
    obtain ⟨hfit, hsl, hrest⟩ := hloc
    rcases List.mem_cons.mp hc with rfl | hc
    · exact ⟨b, o, hfit, hsl⟩
    · rcases hrest with rfl | ⟨_, hloc'⟩
      · exact absurd hc (List.not_mem_nil _)
      · exact LocatedFrom_mem_fits rest (b + 1) 0 hloc' c hc

/-- The empty-file segment satisfies the segment invariant. -/
theorem SegInv_NewSegment_nil (id : Nat) : SegInv (NewSegment id []) := by
  constructor <;> simp [NewSegment]

/-- C1 (amended): on an invariant open segment whose read cache holds
no block at or beyond the current block, a successful `Write` of a
non-empty byte entry followed by `Sync` makes `Read` at the returned
position yield exactly the written bytes.  (Without the `Sync` the
round trip fails; see the counterexample.) -/
theorem c1_round_trip_after_sync (s : Segment) (data : List Nat)
    (hinv : SegInv s) (hcl : s.closed = false) (hne : data ≠ [])
    (hbytes : ∀ x ∈ data, x < 256)
    (hcd : s.cachedData.length = blockSize)
    (hcache : ∀ k, s.cachedId = some k → k < s.currentBlock.id) :
    ∃ p s' s2, s.Write data = .ok (some p, s') ∧
      s'.Sync = .ok s2 ∧ (s2.Read p).1 = .ok data := by
  obtain ⟨p, s', hw, hpseg, hpoff, hinv', hsid, hscl, hscid, hscd, hble, hgle,
    hglt, hseq, hpay, hcsne, hbounds, hloc⟩ := SegWrite_spec s data hinv hcl hne
  have hsync : s'.Sync = .ok (s'.flushBlock false) := by
    rw [Segment.Sync, if_neg (by rw [hscl, hcl]; simp)]
  obtain ⟨hinv2, hfile2, _, _, _, hcl2, hcid2, hcd2⟩ := flushBlock_false_spec hinv'
  rw [← hfile2] at hloc
  refine ⟨p, s', s'.flushBlock false, hw, hsync, ?_⟩
  rw [Segment.Read]
  have hflen := LocatedFrom_length (s.splitIntoChunks data) p.blockId p.offset
    hcsne hloc
  have hdle : (s'.flushBlock false).file.length / blockSize
      ≤ (s'.flushBlock false).file.length := Nat.div_le_self _ _
  have hrl := readLoop_spec (s.splitIntoChunks data) (s'.flushBlock false)
    p.blockId p.offset []
    ((s'.flushBlock false).file.length + blockSize + 2)
    (by rw [hcl2, hscl, hcl])
    (by rw [hcd2, hscd, hcd])
    (by
      intro hx
      rw [hcid2, hscid] at hx
      have hk := hcache p.blockId hx
      omega)
    hcsne
    (by omega)
    hloc
    (by rw [List.isEmpty_nil]; exact hseq)
    (fun c hc => (hbounds c hc).1)
    (fun c hc x hx => hbytes x (hpay ▸ mem_payloads hc hx))
  rw [hrl, List.nil_append, hpay]

/-- C1 witness: the amended round trip holds on a freshly opened empty
segment written with the single byte `97`. -/
theorem c1_witness :
    ∃ p s' s2, (NewSegment 0 []).Write [97] = .ok (some p, s') ∧
      s'.Sync = .ok s2 ∧ (s2.Read p).1 = .ok [97] :=
  c1_round_trip_after_sync (NewSegment 0 []) [97]
    (SegInv_NewSegment_nil 0) rfl (by simp) (by decide)
    (by simp [NewSegment])
    (fun k hk => by simp [NewSegment] at hk)

/-- C5: every chunk a successful `Write` emits lies entirely within one
block of the committed stream: its framing occurs verbatim at an
in-block offset `o` with `o + 7 + payload ≤ blockSize`, so no chunk
straddles a block boundary. -/
theorem c5_no_straddle (s : Segment) (data : List Nat) (hinv : SegInv s)
    (hcl : s.closed = false) (hne : data ≠ []) :
    ∃ p s', s.Write data = .ok (some p, s') ∧
      ∀ c ∈ s.splitIntoChunks data, ∃ b o,
        o + chunkHeaderSize + c.data.length ≤ blockSize ∧
        sliceEq (vstream s') (b * blockSize + o) (chunkBytes c) := by
  obtain ⟨p, s', hw, _, _, _, _, _, _, _, _, _, _, _, _, _, _, hloc⟩ :=
    SegWrite_spec s data hinv hcl hne
  exact ⟨p, s', hw,
    fun c hc => LocatedFrom_mem_fits (s.splitIntoChunks data) p.blockId p.offset
      hloc c hc⟩

/-- C5 witness: the no-straddling layout for a one-byte write on a
fresh segment. -/
theorem c5_witness :
    ∃ p s', (NewSegment 0 []).Write [98] = .ok (some p, s') ∧
      ∀ c ∈ (NewSegment 0 []).splitIntoChunks [98], ∃ b o,
        o + chunkHeaderSize + c.data.length ≤ blockSize ∧
        sliceEq (vstream s') (b * blockSize + o) (chunkBytes c) :=
  c5_no_straddle (NewSegment 0 []) [98] (SegInv_NewSegment_nil 0) rfl (by simp)

/-- C7 (amended): the code performs no emptiness check.  On an open
segment whose current block still has room for a chunk header,
`Write []` is accepted: the split of the empty entry is exactly one
zero-length `FULL` chunk (the empty-chunk sentinel) and the write
returns the position at which that sentinel chunk is appended.  Only
non-empty entries never produce a zero-length chunk. -/
theorem c7_empty_write (s : Segment) (hcl : s.closed = false)
    (hroom : s.currentBlock.data.length + chunkHeaderSize < blockSize) :
    s.splitIntoChunks [] = [⟨[], kFullType⟩] ∧
    s.Write [] = .ok
      (some ⟨s.id, s.currentBlock.id, s.currentBlock.data.length⟩,
        (s.writeChunk [] kFullType).2) ∧
    (∀ data : List Nat, data ≠ [] → ∀ c ∈ s.splitIntoChunks data,
      c.data ≠ []) := by
  have hB : blockSize = 32768 := rfl
  have hH : chunkHeaderSize = 7 := rfl
  have hsplit : s.splitIntoChunks [] = [⟨[], kFullType⟩] := by
    rw [Segment.splitIntoChunks, if_pos hroom]
    simp [splitLoop, splitLoopF_zero]
  refine ⟨hsplit, ?_, ?_⟩
  · rw [Segment.Write, if_neg (by rw [hcl]; simp), hsplit, writeLoop_cons_eq]
    rw [if_neg (show ¬ blockSize < s.currentBlock.data.length + chunkHeaderSize
      + (Chunk.data ⟨[], kFullType⟩).length by
        simp only [List.length_nil]
        omega)]
    rw [writeLoop_nil, writeChunk_fst]
    rfl
  · intro data hne c hc
    have hlen : 1 ≤ c.data.length → c.data ≠ [] := by
      intro h1 h2
      rw [h2] at h1
      simp at h1
    rcases splitIntoChunks_cases s data hne with
        ⟨_, _, hcs⟩ | ⟨hguard, hbig, rest, hcs, _, hts, _, _⟩ | ⟨_, _, hts, _, _⟩
    · rw [hcs] at hc
      rcases List.mem_cons.mp hc with rfl | hx
      · exact hne
      · exact absurd hx (List.not_mem_nil _)
    · rw [hcs] at hc
      rcases List.mem_cons.mp hc with rfl | hx
      · refine hlen ?_
        simp only [List.length_take]
        omega
      · exact hlen (TailSizes_min_len rest hts c hx)
    · exact hlen (TailSizes_min_len _ hts c hc)

/-- C7 witness: on a fresh empty segment, `Write []` succeeds, appends
the zero-length `FULL` sentinel chunk at position `(0,0,0)`, and the
non-empty split of `[99]` has no empty chunk. -/
theorem c7_witness :
    (NewSegment 0 []).splitIntoChunks [] = [⟨[], kFullType⟩] ∧
    (NewSegment 0 []).Write [] = .ok
      (some ⟨0, 0, 0⟩, ((NewSegment 0 []).writeChunk [] kFullType).2) ∧
    (∀ data : List Nat, data ≠ [] →
      ∀ c ∈ (NewSegment 0 []).splitIntoChunks data, c.data ≠ []) :=
  c7_empty_write (NewSegment 0 []) rfl (by norm_num [NewSegment, blockSize,
    chunkHeaderSize])

/-! ## Lookup lemmas for the segment map -/

/-- `listUpdate` on a cons cell. -/
theorem listUpdate_cons (k1 : Nat) (v1 : Segment) (t : List (Nat × Segment))
    (a : Nat) (v : Segment) :
    listUpdate ((k1, v1) :: t) a v
      = (if k1 = a then (a, v) else (k1, v1)) :: listUpdate t a v := rfl

/-- `listUpdate` keeps the key list unchanged. -/
theorem listUpdate_keys :
    ∀ (l : List (Nat × Segment)) (a : Nat) (v : Segment),
      (listUpdate l a v).map Prod.fst = l.map Prod.fst
  | [], _, _ => rfl
  | (k1, v1) :: t, a, v => by
    rw [listUpdate_cons]
    simp only [List.map_cons]
    rw [listUpdate_keys t a v]
    by_cases hp : k1 = a
    · rw [if_pos hp, hp]
    · rw [if_neg hp]

/-- Looking a key up past a prefix that does not contain it. -/
theorem lookup_append_sentinel :
    ∀ (l : List (Nat × Segment)) (k : Nat) (nv : Segment),
      (∀ kv ∈ l, kv.1 ≠ k) → List.lookup k (l ++ [(k, nv)]) = some nv
  | [], k, nv, _ => by simp [List.lookup]
  | (k1, v1) :: t, k, nv, h => by
    simp only [List.cons_append, List.lookup]
    rw [show (k == k1) = false from beq_eq_false_iff_ne.mpr
      (Ne.symm (h (k1, v1) (by simp)))]
    exact lookup_append_sentinel t k nv (fun kv hkv => h kv (by simp [hkv]))

/-- Looking up a key distinct from the updated one. -/
theorem lookup_listUpdate_ne :
    ∀ (l : List (Nat × Segment)) (a k : Nat) (v : Segment), k ≠ a →
      List.lookup k (listUpdate l a v) = List.lookup k l
  | [], _, _, _, _ => rfl
  | (k1, v1) :: t, a, k, v, h => by
    rw [listUpdate_cons]
    by_cases hp : k1 = a
    · rw [if_pos hp]
      simp only [List.lookup]
      rw [show (k == a) = false from beq_eq_false_iff_ne.mpr h,
        show (k == k1) = false from beq_eq_false_iff_ne.mpr (hp ▸ h)]
      exact lookup_listUpdate_ne t a k v h
    · rw [if_neg hp]
      simp only [List.lookup]
      cases hkp : k == k1
      · exact lookup_listUpdate_ne t a k v h
      · rfl

/-- Looking up the updated key finds the new value, provided the key
was present. -/
theorem lookup_listUpdate_self :
    ∀ (l : List (Nat × Segment)) (a : Nat) (v x : Segment),
      List.lookup a l = some x → List.lookup a (listUpdate l a v) = some v
  | [], _, _, _, h => by simp [List.lookup] at h
  | (k1, v1) :: t, a, v, x, h => by
    rw [listUpdate_cons]
    by_cases hp : k1 = a
    · rw [if_pos hp]
      simp only [List.lookup, beq_self_eq_true]
    · rw [if_neg hp]
      simp only [List.lookup] at h ⊢
      rw [show (a == k1) = false from beq_eq_false_iff_ne.mpr
        (fun hx => hp hx.symm)] at h ⊢
      exact lookup_listUpdate_self t a v x h

/-- A successful lookup in a prefix survives appending. -/
theorem lookup_append_left :
    ∀ (l1 l2 : List (Nat × Segment)) (k : Nat) (v : Segment),
      List.lookup k l1 = some v → List.lookup k (l1 ++ l2) = some v
  | [], _, _, _, h => by simp [List.lookup] at h
  | (k1, v1) :: t, l2, k, v, h => by
    simp only [List.cons_append, List.lookup] at h ⊢
    cases hkp : k == k1
    · rw [hkp] at h
      exact lookup_append_left t l2 k v h
    · rw [hkp] at h
      exact h

/-- C3 (amended): when the active segment's `Size()` has reached the
threshold, `Write` first syncs the active segment, installs a fresh
segment with id one greater as the new active segment, and performs the
whole write in that fresh segment. -/
theorem c3_rotation (w : WAL) (data : List Nat) (seg : Segment)
    (hlk : w.segments.lookup w.active = some seg)
    (hsize : w.segmentSize ≤ seg.Size)
    (hinv : SegInv seg) (hcl : seg.closed = false) (hne : data ≠ [])
    (hfresh : ∀ kv ∈ w.segments, kv.1 ≠ seg.Id + 1) :
    ∃ p w', w.Write data = .ok (some p, w') ∧
      seg.Sync = .ok (seg.flushBlock false) ∧
      (seg.flushBlock false).file = vstream seg ∧
      w'.active = seg.Id + 1 ∧
      p.segmentId = seg.Id + 1 ∧
      (∃ seg2, (NewSegment (seg.Id + 1) []).Write data = .ok (some p, seg2) ∧
        w'.segments.lookup w'.active = some seg2) ∧
      (w.active ≠ seg.Id + 1 →
        w'.segments.lookup w.active = some (seg.flushBlock false)) := by
  obtain ⟨hinv2, hfile2, _, _, hfid, hfcl, _, _⟩ := flushBlock_false_spec hinv
  have hsync : seg.Sync = .ok (seg.flushBlock false) := by
    rw [Segment.Sync, if_neg (by rw [hcl]; simp)]
  have hfreshid : (seg.flushBlock false).Id = seg.Id := by
    rw [Segment.Id, Segment.Id, hfid]
  obtain ⟨p, seg2, hw, hpseg, _, _, _, _, _, _, _, _, _, _, _, _, _, _⟩ :=
    SegWrite_spec (NewSegment (seg.Id + 1) []) data (SegInv_NewSegment_nil _)
      rfl hne
  have hrot : w.rotate = .ok { w with
      segments := listUpdate w.segments w.active (seg.flushBlock false)
        ++ [(seg.Id + 1, NewSegment (seg.Id + 1) [])]
      active := seg.Id + 1 } := by
    rw [WAL.rotate, hlk]
    dsimp only
    rw [hsync]
    dsimp only
    rw [hfreshid]
  have hlknew : List.lookup (seg.Id + 1)
      (listUpdate w.segments w.active (seg.flushBlock false)
        ++ [(seg.Id + 1, NewSegment (seg.Id + 1) [])])
      = some (NewSegment (seg.Id + 1) []) := by
    refine lookup_append_sentinel _ _ _ ?_
    intro kv hkv
    have hkeys := listUpdate_keys w.segments w.active (seg.flushBlock false)
    have : kv.1 ∈ (listUpdate w.segments w.active (seg.flushBlock false)).map
        Prod.fst := List.mem_map_of_mem Prod.fst hkv
    rw [hkeys] at this
    obtain ⟨kv', hkv', heq⟩ := List.mem_map.mp this
    rw [← heq]
    exact hfresh kv' hkv'
  refine ⟨p, { w with
      segments := listUpdate (listUpdate w.segments w.active (seg.flushBlock false)
        ++ [(seg.Id + 1, NewSegment (seg.Id + 1) [])]) (seg.Id + 1) seg2
      active := seg.Id + 1 }, ?_, hsync, hfile2, rfl, by rw [hpseg]; rfl,
    ⟨seg2, hw, ?_⟩, ?_⟩
  · rw [WAL.Write, hlk]
    dsimp only
    rw [if_pos hsize, hrot]
    dsimp only
    rw [hlknew]
    dsimp only
    rw [hw]
  · exact lookup_listUpdate_self _ _ _ _ hlknew
  · intro hne'
    rw [lookup_listUpdate_ne _ _ _ _ hne']
    refine lookup_append_left _ _ _ _ ?_
    exact lookup_listUpdate_self _ _ _ _ hlk

/-- C3 witness: with threshold 0 the first write on a fresh log
rotates: it syncs segment 0, creates segment 1, makes it active and
writes entirely there. -/
theorem c3_witness :
    ∃ p w', (OpenWAL 0).Write [100] = .ok (some p, w') ∧
      (NewSegment 0 []).Sync = .ok ((NewSegment 0 []).flushBlock false) ∧
      ((NewSegment 0 []).flushBlock false).file = vstream (NewSegment 0 []) ∧
      w'.active = (NewSegment 0 []).Id + 1 ∧
      p.segmentId = (NewSegment 0 []).Id + 1 ∧
      (∃ seg2, (NewSegment ((NewSegment 0 []).Id + 1) []).Write [100]
          = .ok (some p, seg2) ∧
        w'.segments.lookup w'.active = some seg2) ∧
      ((OpenWAL 0).active ≠ (NewSegment 0 []).Id + 1 →
        w'.segments.lookup (OpenWAL 0).active
          = some ((NewSegment 0 []).flushBlock false)) :=
  c3_rotation (OpenWAL 0) [100] (NewSegment 0 []) rfl (Nat.zero_le _)
    (SegInv_NewSegment_nil 0) rfl (by simp)
    (fun kv hkv => by
      rcases List.mem_singleton.mp hkv with rfl
      simp [NewSegment, Segment.Id])

/-- Same segment and smaller global byte position means lexicographically
smaller, as long as offsets stay inside a block. -/
theorem posLt_of_key {p q : Position} (hp : p.offset < blockSize)
    (hq : q.offset < blockSize) (hs : p.segmentId = q.segmentId)
    (hk : p.blockId * blockSize + p.offset
      < q.blockId * blockSize + q.offset) : posLt p q := by
  rcases Nat.lt_trichotomy p.blockId q.blockId with h | h | h
  · exact Or.inr ⟨hs, Or.inl h⟩
  · refine Or.inr ⟨hs, Or.inr ⟨h, ?_⟩⟩
    rw [h] at hk
    omega
  · exfalso
    have hmul := Nat.mul_le_mul_right blockSize (Nat.succ_le_of_lt h)
    rw [Nat.succ_mul] at hmul
    have hB : blockSize = 32768 := rfl
    omega

/-- One `WAL.Write` of a non-empty entry from an invariant log: it
succeeds, re-establishes the invariant (rotating first when the
threshold is reached), never moves the active id backwards, stamps the
position with the new active id, and places it strictly below the new
write head and at or above the old one when no rotation happened. -/
theorem WALWrite_step (w : WAL) (data : List Nat) (seg : Segment)
    (hw : WInv w seg) (hne : data ≠ []) :
    ∃ p seg2 w', w.Write data = .ok (some p, w') ∧ WInv w' seg2 ∧
      w.active ≤ w'.active ∧
      p.segmentId = w'.active ∧
      p.offset < blockSize ∧
      p.blockId * blockSize + p.offset < gpos seg2 ∧
      (p.segmentId = w.active →
        gpos seg ≤ p.blockId * blockSize + p.offset) := by
  by_cases hrot : w.segmentSize ≤ seg.Size
  · -- rotation first: the write lands in the fresh segment
    obtain ⟨hinv2, hfile2, _, _, hfid, _, _, _⟩ := flushBlock_false_spec hw.inv
    have hsync : seg.Sync = .ok (seg.flushBlock false) := by
      rw [Segment.Sync, if_neg (by rw [hw.op]; simp)]
    have hfreshid : (seg.flushBlock false).Id = seg.Id := by
      rw [Segment.Id, Segment.Id, hfid]
    obtain ⟨p, seg2, hwr, hpseg, hpoff, hinv', hsid', hscl', _, _, _, _, hglt,
        _, _, _, _, _⟩ :=
      SegWrite_spec (NewSegment (seg.Id + 1) []) data (SegInv_NewSegment_nil _)
        rfl hne
    have hsegid : seg.Id = w.active := hw.sid
    have hrotok : w.rotate = .ok { w with
        segments := listUpdate w.segments w.active (seg.flushBlock false)
          ++ [(seg.Id + 1, NewSegment (seg.Id + 1) [])]
        active := seg.Id + 1 } := by
      rw [WAL.rotate, hw.lk]
      dsimp only
      rw [hsync]
      dsimp only
      rw [hfreshid]
    have hlknew : List.lookup (seg.Id + 1)
        (listUpdate w.segments w.active (seg.flushBlock false)
          ++ [(seg.Id + 1, NewSegment (seg.Id + 1) [])])
        = some (NewSegment (seg.Id + 1) []) := by
      refine lookup_append_sentinel _ _ _ ?_
      intro kv hkv
      have hmem : kv.1 ∈ (listUpdate w.segments w.active
          (seg.flushBlock false)).map Prod.fst := List.mem_map_of_mem Prod.fst hkv
      rw [listUpdate_keys] at hmem
      obtain ⟨kv', hkv', heq⟩ := List.mem_map.mp hmem
      rw [← heq]
      have := hw.keys kv' hkv'
      omega
    refine ⟨p, seg2, { w with
        segments := listUpdate (listUpdate w.segments w.active
            (seg.flushBlock false)
          ++ [(seg.Id + 1, NewSegment (seg.Id + 1) [])]) (seg.Id + 1) seg2
        active := seg.Id + 1 },
      ?_, ⟨lookup_listUpdate_self _ _ _ _ hlknew, hinv',
        by rw [hscl']; rfl, by rw [hsid']; rfl, ?_⟩, by
          show w.active ≤ seg.Id + 1
          omega,
      by rw [hpseg]; rfl, hpoff, hglt, ?_⟩
    · rw [WAL.Write, hw.lk]
      dsimp only
      rw [if_pos hrot, hrotok]
      dsimp only
      rw [hlknew]
      dsimp only
      rw [hwr]
    · intro kv hkv
      have hmem : kv.1 ∈ (listUpdate (listUpdate w.segments w.active
          (seg.flushBlock false)
        ++ [(seg.Id + 1, NewSegment (seg.Id + 1) [])]) (seg.Id + 1) seg2).map
          Prod.fst := List.mem_map_of_mem Prod.fst hkv
      rw [listUpdate_keys, List.map_append, listUpdate_keys] at hmem
      rcases List.mem_append.mp hmem with hmem | hmem
      · obtain ⟨kv', hkv', heq⟩ := List.mem_map.mp hmem
        have := hw.keys kv' hkv'
        show kv.1 ≤ seg.Id + 1
        omega
      · simp only [List.map_cons, List.map_nil, List.mem_singleton] at hmem
        show kv.1 ≤ seg.Id + 1
        omega
    · intro hps
      exfalso
      rw [hpseg] at hps
      have : (NewSegment (seg.Id + 1) []).id = seg.Id + 1 := rfl
      omega
  · -- no rotation: the write stays in the active segment
    obtain ⟨p, s', hwr, hpseg, hpoff, hinv', hsid', hscl', _, _, _, hgle, hglt,
        _, _, _, _, _⟩ := SegWrite_spec seg data hw.inv hw.op hne
    refine ⟨p, s', { w with segments := listUpdate w.segments w.active s' },
      ?_, ⟨lookup_listUpdate_self _ _ _ _ hw.lk, hinv',
        by rw [hscl', hw.op], by rw [hsid']; exact hw.sid, ?_⟩,
      le_refl _, by rw [hpseg]; exact hw.sid, hpoff, hglt, fun _ => hgle⟩
    · rw [WAL.Write, hw.lk]
      dsimp only
      rw [if_neg hrot]
      dsimp only
      rw [hw.lk]
      dsimp only
      rw [hwr]
    · intro kv hkv
      have hmem : kv.1 ∈ (listUpdate w.segments w.active s').map Prod.fst :=
        List.mem_map_of_mem Prod.fst hkv
      rw [listUpdate_keys] at hmem
      obtain ⟨kv', hkv', heq⟩ := List.mem_map.mp hmem
      rw [← heq]
      exact hw.keys kv' hkv'

/-- Writing a list of non-empty entries from an invariant log succeeds,
and every position produced is stamped at or above the starting active
id, strictly below the final write head within its segment, and the
whole position list is strictly increasing lexicographically. -/
theorem writeAll_spec :
    ∀ (ds : List (List Nat)) (w : WAL) (seg : Segment), WInv w seg →
      (∀ d ∈ ds, d ≠ []) →
      ∃ ps w2, writeAll w ds = .ok (ps, w2) ∧
        List.Pairwise posLt ps ∧
        ∀ q ∈ ps, w.active ≤ q.segmentId ∧ q.offset < blockSize ∧
          (q.segmentId = w.active →
            gpos seg ≤ q.blockId * blockSize + q.offset)
  | [], w, seg, _, _ => ⟨[], w, rfl, List.Pairwise.nil, by simp⟩
  | d :: ds, w, seg, hw, hall => by
    obtain ⟨p, seg2, w1, hwr, hw1, hact, hps, hpoff, hplt, hpge⟩ :=
      WALWrite_step w d seg hw (hall d (by simp))
    obtain ⟨ps, w2, hrec, hpair, hbound⟩ :=
      writeAll_spec ds w1 seg2 hw1 (fun d' hd' => hall d' (by simp [hd']))
    refine ⟨p :: ps, w2, ?_, ?_, ?_⟩
    · rw [writeAll, hwr]
      dsimp only
      rw [hrec]
      rfl
    · refine List.Pairwise.cons ?_ hpair
      intro q hq
      obtain ⟨hq1, hq2, hq3⟩ := hbound q hq
      rcases Nat.lt_or_ge p.segmentId q.segmentId with h | h
      · exact Or.inl h
      · have hqs : q.segmentId = w1.active := by omega
        exact posLt_of_key hpoff hq2 (by omega)
          (lt_of_lt_of_le hplt (hq3 hqs))
    · intro q hq
      rcases List.mem_cons.mp hq with rfl | hq
      · exact ⟨by omega, hpoff, fun hqs => hpge hqs⟩
      · obtain ⟨hq1, hq2, hq3⟩ := hbound q hq
        refine ⟨by omega, hq2, fun hqs => ?_⟩
        have hqs1 : q.segmentId = w1.active := by omega
        have h1 := hq3 hqs1
        have h2 := hpge (by omega)
        omega

/-- C9: from any invariant log state, the positions returned by a
sequence of successful writes of non-empty entries are strictly
increasing in lexicographic `(segment_id, block_id, offset)` order. -/
theorem c9_position_order (w : WAL) (seg : Segment) (hw : WInv w seg)
    (ds : List (List Nat)) (hds : ∀ d ∈ ds, d ≠ []) :
    ∃ ps w2, writeAll w ds = .ok (ps, w2) ∧ List.Pairwise posLt ps := by
  obtain ⟨ps, w2, h1, h2, _⟩ := writeAll_spec ds w seg hw hds
  exact ⟨ps, w2, h1, h2⟩

/-- C9 witness: three writes on a fresh log with a small rotation
threshold produce lexicographically increasing positions. -/
theorem c9_witness :
    ∃ ps w2, writeAll (OpenWAL 20) [[1], [2], [3]] = .ok (ps, w2) ∧
      List.Pairwise posLt ps :=
  c9_position_order (OpenWAL 20) (NewSegment 0 [])
    ⟨rfl, SegInv_NewSegment_nil 0, rfl, rfl, by
      intro kv hkv
      rcases List.mem_singleton.mp hkv with rfl
      exact Nat.le_refl 0⟩
    [[1], [2], [3]] (by intro d hd; fin_cases hd <;> simp)

/-! ## The single-slot read cache -/

/-- `getD` into an all-zero buffer. -/
theorem getD_replicate_zero (n i : Nat) :
    (List.replicate n (0 : Nat)).getD i 0 = 0 := by
  simp only [List.getD_eq_getElem?_getD, List.getElem?_replicate]
  split <;> rfl

/-- `flushBlock` never touches the cached block id. -/
theorem flushBlock_cachedId (s : Segment) (p : Bool) :
    (s.flushBlock p).cachedId = s.cachedId := by
  simp only [Segment.flushBlock]
  repeat' split
  all_goals rfl

/-- `flushBlock` never touches the cached block data. -/
theorem flushBlock_cachedData (s : Segment) (p : Bool) :
    (s.flushBlock p).cachedData = s.cachedData := by
  simp only [Segment.flushBlock]
  repeat' split
  all_goals rfl

/-- `readBlock` on a cache hit returns the cached snapshot unchanged,
without consulting the file. -/
theorem readBlock_hit (s : Segment) (b : Nat) (hcl : s.closed = false)
    (hit : s.cachedId = some b) :
    s.readBlock b = (.ok s.cachedData, s) := by
  rw [Segment.readBlock, if_neg (by rw [hcl]; simp), if_pos hit]

/-- A block of zero bytes parses as the zero-length `FULL` sentinel. -/
theorem readChunk_replicate_zero {n : Nat} (h : chunkHeaderSize + 1 ≤ n) :
    readChunk (List.replicate n 0) = .ok ⟨[], kFullType⟩ := by
  have hH : chunkHeaderSize = 7 := rfl
  have hg0 : getUint32LE (List.replicate n 0) = 0 := by
    simp [getUint32LE, getD_replicate_zero]
  have hg16 : getUint16LE ((List.replicate n 0).drop 4) = 0 := by
    rw [List.drop_replicate]
    simp [getUint16LE, getD_replicate_zero]
  have hg6 : (List.replicate n 0).getD 6 0 = 0 := getD_replicate_zero n 6
  simp only [readChunk, List.length_replicate, hg0, hg16, hg6]
  rw [if_neg (show ¬ n < chunkHeaderSize by omega),
    if_neg (show ¬ n < 0 + chunkHeaderSize by omega),
    List.take_zero, if_pos (show crc32 [] = 0 from rfl)]
  rfl

/-- One read-loop step ending in `io.EOF` on a zero-length chunk. -/
theorem readLoop_eof_step {s s' : Segment} {b o : Nat} {bd : List Nat}
    {c : Chunk} (entry : List Nat)
    (hrb : s.readBlock b = (.ok bd, s')) (ho : ¬ bd.length ≤ o)
    (hchk : readChunk (bd.drop o) = .ok c) (hc0 : c.data.length = 0) :
    ∀ fuel, 1 ≤ fuel → s.readLoop b o entry fuel = (.error .eof, s')
  | 0, h => absurd h (by omega)
  | fuel + 1, _ => by
    simp only [Segment.readLoop]
    rw [hrb]
    dsimp only
    rw [if_neg ho, hchk]
    dsimp only
    rw [if_pos hc0]

/-- One read-loop step that finds a non-empty `FULL` chunk and returns
its payload. -/
theorem readLoop_full_step {s s' : Segment} {b o : Nat} {bd : List Nat}
    {c : Chunk}
    (hrb : s.readBlock b = (.ok bd, s')) (ho : ¬ bd.length ≤ o)
    (hchk : readChunk (bd.drop o) = .ok c) (hc0 : ¬ c.data.length = 0)
    (hct : c.chunkType = kFullType) :
    ∀ fuel, 1 ≤ fuel → s.readLoop b o [] fuel = (.ok c.data, s')
  | 0, h => absurd h (by omega)
  | fuel + 1, _ => by
    simp only [Segment.readLoop]
    rw [hrb]
    dsimp only
    rw [if_neg ho, hchk]
    dsimp only
    rw [if_neg hc0]
    rw [if_neg (show ¬ ((List.nil : List Nat).length = 0 ∧
        ¬(c.chunkType = kFullType ∨ c.chunkType = kFirstType)) from
      fun hx => hx.2 (Or.inl hct))]
    rw [if_neg (show ¬ ((List.nil : List Nat).length ≠ 0 ∧
        ¬(c.chunkType = kMiddleType ∨ c.chunkType = kLastType)) from
      fun hx => hx.1 rfl)]
    rw [if_pos (Or.inr hct)]
    rfl

/-- C10: the single-slot read cache is never invalidated by writes or
flushes: `writeChunk` and `flushBlock` leave both cache fields
untouched, and a read of a cached block id is served entirely from the
cache.  Consequently, in the concrete scenario `write e1; Sync;
Read(pos1); write e2; Sync; Read(pos2)`, the final read is answered
from the stale snapshot cached by the first read — it returns `io.EOF`
from the zero bytes it sees there instead of the flushed entry `e2`. -/
theorem c10_stale_cache :
    (∀ (s : Segment) (d : List Nat) (t : Nat),
      (s.writeChunk d t).2.cachedId = s.cachedId ∧
      (s.writeChunk d t).2.cachedData = s.cachedData) ∧
    (∀ (s : Segment) (p : Bool),
      (s.flushBlock p).cachedId = s.cachedId ∧
      (s.flushBlock p).cachedData = s.cachedData) ∧
    (∀ (s : Segment) (b : Nat), s.closed = false → s.cachedId = some b →
      s.readBlock b = (.ok s.cachedData, s)) ∧
    ((NewSegment 0 []).Write [1] = .ok (some ⟨0, 0, 0⟩, cSeg1) ∧
      cSeg1.Sync = .ok cSeg2 ∧
      cSeg2.Read ⟨0, 0, 0⟩ = (.ok [1], cSeg3) ∧
      cSeg3.Write [2] = .ok (some ⟨0, 0, 8⟩, cSeg4) ∧
      cSeg4.Sync = .ok cSeg5 ∧
      cSeg5.file = cChunk1 ++ cChunk2 ∧
      (cSeg5.Read ⟨0, 0, 8⟩).1 = .error .eof ∧
      (cSeg5.Read ⟨0, 0, 8⟩).1 ≠ .ok [2]) := by
  have hB : blockSize = 32768 := rfl
  have hbd0len : cBd0.length = blockSize := by
    rw [cBd0, List.length_append, List.length_replicate]
    have h1 : cChunk1.length = 8 := by
      rw [cChunk1, chunkBytes_length]
      rfl
    rw [h1]
    omega
  refine ⟨fun s d t => ⟨rfl, rfl⟩,
    fun s p => ⟨flushBlock_cachedId s p, flushBlock_cachedData s p⟩,
    fun s b hcl hit => readBlock_hit s b hcl hit,
    rfl, rfl, ?_, rfl, rfl, rfl, ?_, ?_⟩
  · -- the first read parses the first chunk and caches block 0
    have hrb : cSeg2.readBlock 0 = (.ok cBd0, cSeg3) := rfl
    have hchk : readChunk (cBd0.drop 0) = .ok ⟨[1], kFullType⟩ := by
      refine readChunk_spec (f := cBd0) (b := 0) (o := 0)
        (c := ⟨[1], kFullType⟩) hbd0len
        (by intro j h1 h2; rw [Nat.zero_mul, Nat.zero_add]) ?_ (by decide)
        (by decide)
      show sliceEq cBd0 (0 * blockSize + 0) (chunkBytes ⟨[1], kFullType⟩)
      exact sliceEq_here (f := []) (List.replicate (blockSize - 8) 0)
    have := readLoop_full_step hrb (by omega) hchk (by decide) rfl
      (cSeg2.file.length + blockSize + 2) (by omega)
    rw [Segment.Read]
    exact this
  · -- the second read hits the stale cache and sees only zeros
    have hrb : cSeg5.readBlock 0 = (.ok cBd0, cSeg5) := rfl
    have hdrop : cBd0.drop 8 = List.replicate (blockSize - 8) 0 := rfl
    have hchk : readChunk (cBd0.drop 8) = .ok ⟨[], kFullType⟩ := by
      rw [hdrop]
      exact readChunk_replicate_zero (by decide)
    have := readLoop_eof_step [] hrb (by omega) hchk rfl
      (cSeg5.file.length + blockSize + 2) (by omega)
    rw [Segment.Read]
    rw [this]
  · -- and in particular it does not return the flushed second entry
    have hrb : cSeg5.readBlock 0 = (.ok cBd0, cSeg5) := rfl
    have hdrop : cBd0.drop 8 = List.replicate (blockSize - 8) 0 := rfl
    have hchk : readChunk (cBd0.drop 8) = .ok ⟨[], kFullType⟩ := by
      rw [hdrop]
      exact readChunk_replicate_zero (by decide)
    have := readLoop_eof_step [] hrb (by omega) hchk rfl
      (cSeg5.file.length + blockSize + 2) (by omega)
    rw [Segment.Read]
    rw [this]
    simp

/-- C10 witness: a fresh segment whose cache slot holds block 0 serves
`readBlock 0` from the cache. -/
theorem c10_witness :
    ({ NewSegment 0 [] with cachedId := some 0 } : Segment).readBlock 0
      = (.ok ({ NewSegment 0 [] with cachedId := some 0 } : Segment).cachedData,
        { NewSegment 0 [] with cachedId := some 0 }) :=
  c10_stale_cache.2.2.1 { NewSegment 0 [] with cachedId := some 0 } 0 rfl rfl

/-! ## The streaming-reader scenario -/

/-- One `Reader.nextLoop` step whose segment read succeeds and stays
inside the block: the offset advances past the chunk. -/
theorem nextLoop_ok_step {w : WAL} {r : Reader} {seg pr2 : Segment}
    {entry : List Nat}
    (hlk : w.segments.lookup r.currentId = some seg)
    (hread : seg.Read r.pos = (.ok entry, pr2))
    (hoff : ¬ blockSize ≤ r.pos.offset + chunkHeaderSize + entry.length) :
    ∀ fuel, 1 ≤ fuel → Reader.nextLoop w r fuel
      = (.ok entry,
         { w with segments := listUpdate w.segments r.currentId pr2 },
         { r with pos := { r.pos with
             offset := r.pos.offset + chunkHeaderSize + entry.length } })
  | 0, h => absurd h (by omega)
  | fuel + 1, _ => by
    simp only [Reader.nextLoop]
    rw [hlk]
    dsimp only
    rw [hread]
    dsimp only
    rw [if_neg hoff]

/-- One `Reader.nextLoop` step whose segment read hits `io.EOF` with no
next segment: the reader closes and reports `io.EOF`. -/
theorem nextLoop_eof_step {w : WAL} {r : Reader} {seg pr2 : Segment}
    (hlk : w.segments.lookup r.currentId = some seg)
    (hread : seg.Read r.pos = (.error .eof, pr2))
    (hnone : (listUpdate w.segments r.currentId pr2).lookup
      (r.pos.segmentId + 1) = none) :
    ∀ fuel, 1 ≤ fuel → Reader.nextLoop w r fuel
      = (.error .eof,
         { w with segments := listUpdate w.segments r.currentId pr2 },
         { r with closed := true })
  | 0, h => absurd h (by omega)
  | fuel + 1, _ => by
    simp only [Reader.nextLoop]
    rw [hlk]
    dsimp only
    rw [hread]
    dsimp only
    rw [if_pos rfl, hnone]

/-- C4: on a fresh log, writing `entry1`, `entry2`, `entry3` (the first
at position `(0,0,0)`), syncing, and iterating a reader created at that
first position yields exactly `entry1`, `entry2`, `entry3`, and then
`io.EOF`. -/
theorem c4_reader_sequence :
    (OpenWAL 1000).Write rE1 = .ok (some ⟨0, 0, 0⟩, rW1) ∧
    rW1.Write rE2 = .ok (some ⟨0, 0, 13⟩, rW2) ∧
    rW2.Write rE3 = .ok (some ⟨0, 0, 26⟩, rW3) ∧
    rW3.Sync = .ok rW4 ∧
    rW4.NewReader ⟨0, 0, 0⟩ = .ok rRd0 ∧
    Reader.Next rW4 rRd0 = (.ok rE1, rW5, rRd1) ∧
    Reader.Next rW5 rRd1 = (.ok rE2, rW5, rRd2) ∧
    Reader.Next rW5 rRd2 = (.ok rE3, rW5, rRd3) ∧
    Reader.Next rW5 rRd3 = (.error .eof, rW5, rRd4) := by
  have hB : blockSize = 32768 := rfl
  have h1len : rC1.length = 13 := by
    rw [rC1, chunkBytes_length]
    rfl
  have h2len : rC2.length = 13 := by
    rw [rC2, chunkBytes_length]
    rfl
  have h3len : rC3.length = 13 := by
    rw [rC3, chunkBytes_length]
    rfl
  have hbdlen : rBd.length = blockSize := by
    rw [rBd, List.length_append, List.length_append, List.length_append,
      List.length_replicate, h1len, h2len, h3len]
    omega
  have hag : ∀ j : Nat, 0 * blockSize + j < rBd.length → j < blockSize →
      rBd.getD j 0 = rBd.getD (0 * blockSize + j) 0 := by
    intro j h1 h2
    rw [Nat.zero_mul, Nat.zero_add]
  have hchk1 : readChunk (rBd.drop 0) = .ok ⟨rE1, kFullType⟩ := by
    refine readChunk_spec (f := rBd) (b := 0) (o := 0)
      (c := ⟨rE1, kFullType⟩) hbdlen hag ?_ (by decide) (by decide)
    show sliceEq rBd (0 * blockSize + 0) (chunkBytes ⟨rE1, kFullType⟩)
    exact sliceEq_here (f := [])
      (rC2 ++ rC3 ++ List.replicate (blockSize - 39) 0)
  have hchk2 : readChunk (rBd.drop 13) = .ok ⟨rE2, kFullType⟩ := by
    refine readChunk_spec (f := rBd) (b := 0) (o := 13)
      (c := ⟨rE2, kFullType⟩) hbdlen hag ?_ (by decide) (by decide)
    show sliceEq rBd (0 * blockSize + 13) (chunkBytes ⟨rE2, kFullType⟩)
    exact sliceEq_here (f := rC1)
      (rC3 ++ List.replicate (blockSize - 39) 0)
  have hchk3 : readChunk (rBd.drop 26) = .ok ⟨rE3, kFullType⟩ := by
    refine readChunk_spec (f := rBd) (b := 0) (o := 26)
      (c := ⟨rE3, kFullType⟩) hbdlen hag ?_ (by decide) (by decide)
    show sliceEq rBd (0 * blockSize + 26) (chunkBytes ⟨rE3, kFullType⟩)
    exact sliceEq_here (f := rC1 ++ rC2)
      (List.replicate (blockSize - 39) 0)
  have hrd1 : rSegS.Read ⟨0, 0, 0⟩ = (.ok rE1, rSegR) := by
    have hrb : rSegS.readBlock 0 = (.ok rBd, rSegR) := rfl
    have hh := readLoop_full_step hrb (by omega) hchk1 (by decide) rfl
      (rSegS.file.length + blockSize + 2) (by omega)
    rw [Segment.Read]
    exact hh
  have hrd2 : rSegR.Read ⟨0, 0, 13⟩ = (.ok rE2, rSegR) := by
    have hrb : rSegR.readBlock 0 = (.ok rBd, rSegR) := rfl
    have hh := readLoop_full_step hrb (by omega) hchk2 (by decide) rfl
      (rSegR.file.length + blockSize + 2) (by omega)
    rw [Segment.Read]
    exact hh
  have hrd3 : rSegR.Read ⟨0, 0, 26⟩ = (.ok rE3, rSegR) := by
    have hrb : rSegR.readBlock 0 = (.ok rBd, rSegR) := rfl
    have hh := readLoop_full_step hrb (by omega) hchk3 (by decide) rfl
      (rSegR.file.length + blockSize + 2) (by omega)
    rw [Segment.Read]
    exact hh
  have hrd4 : rSegR.Read ⟨0, 0, 39⟩ = (.error .eof, rSegR) := by
    have hrb : rSegR.readBlock 0 = (.ok rBd, rSegR) := rfl
    have hdrop : rBd.drop 39 = List.replicate (blockSize - 39) 0 := rfl
    have hchk : readChunk (rBd.drop 39) = .ok ⟨[], kFullType⟩ := by
      rw [hdrop]
      exact readChunk_replicate_zero (by decide)
    have hh := readLoop_eof_step [] hrb (by omega) hchk rfl
      (rSegR.file.length + blockSize + 2) (by omega)
    rw [Segment.Read]
    exact hh
  have hlk4 : rW4.segments.lookup rRd0.currentId = some rSegS := rfl
  have hlk5a : rW5.segments.lookup rRd1.currentId = some rSegR := rfl
  have hlk5b : rW5.segments.lookup rRd2.currentId = some rSegR := rfl
  have hlk5c : rW5.segments.lookup rRd3.currentId = some rSegR := rfl
  have hoff1 : ¬ blockSize ≤ rRd0.pos.offset + chunkHeaderSize + rE1.length := by
    decide
  have hoff2 : ¬ blockSize ≤ rRd1.pos.offset + chunkHeaderSize + rE2.length := by
    decide
  have hoff3 : ¬ blockSize ≤ rRd2.pos.offset + chunkHeaderSize + rE3.length := by
    decide
  have hnone : (listUpdate rW5.segments rRd3.currentId rSegR).lookup
      (rRd3.pos.segmentId + 1) = none := rfl
  refine ⟨rfl, rfl, rfl, rfl, rfl, ?_, ?_, ?_, ?_⟩
  · rw [Reader.Next, if_neg (by decide)]
    exact nextLoop_ok_step hlk4 hrd1 hoff1 (rW4.segments.length + 1) (by omega)
  · rw [Reader.Next, if_neg (by decide)]
    exact nextLoop_ok_step hlk5a hrd2 hoff2 (rW5.segments.length + 1) (by omega)
  · rw [Reader.Next, if_neg (by decide)]
    exact nextLoop_ok_step hlk5b hrd3 hoff3 (rW5.segments.length + 1) (by omega)
  · rw [Reader.Next, if_neg (by decide)]
    exact nextLoop_eof_step hlk5c hrd4 hnone (rW5.segments.length + 1) (by omega)

/-! ## CRC tamper detection -/

/-- One CRC bit step is injective on 32-bit states: the shifted-out bit
is recoverable from bit 31 of the result (the reflected polynomial has
its top bit set). -/
theorem crcStep_inj {a b : Nat} (ha : a < 2 ^ 32) (hb : b < 2 ^ 32)
    (h : crcStep a = crcStep b) : a = b := by
  have hpoly31 : Nat.testBit crcPoly 31 = true := by decide
  have ha1 : a >>> 1 < 2 ^ 31 := by
    rw [Nat.shiftRight_eq_div_pow]
    omega
  have hb1 : b >>> 1 < 2 ^ 31 := by
    rw [Nat.shiftRight_eq_div_pow]
    omega
  have hta : (a >>> 1).testBit 31 = false := Nat.testBit_lt_two_pow ha1
  have htb : (b >>> 1).testBit 31 = false := Nat.testBit_lt_two_pow hb1
  have hda : a >>> 1 = a / 2 := by
    rw [Nat.shiftRight_eq_div_pow]
  have hdb : b >>> 1 = b / 2 := by
    rw [Nat.shiftRight_eq_div_pow]
  rw [crcStep, crcStep] at h
  by_cases hpa : a % 2 = 1 <;> by_cases hpb : b % 2 = 1
  · rw [if_pos hpa, if_pos hpb] at h
    have h2 : a >>> 1 = b >>> 1 := by
      have h3 := congrArg (fun z => z ^^^ crcPoly) h
      simpa [Nat.xor_assoc, Nat.xor_self] using h3
    rw [hda, hdb] at h2
    omega
  · rw [if_pos hpa, if_neg hpb] at h
    exfalso
    have h3 : (a >>> 1 ^^^ crcPoly).testBit 31 = (b >>> 1).testBit 31 :=
      congrArg (fun z => z.testBit 31) h
    rw [Nat.testBit_xor, hta, htb, hpoly31] at h3
    exact absurd h3 (by decide)
  · rw [if_neg hpa, if_pos hpb] at h
    exfalso
    have h3 : (a >>> 1).testBit 31 = (b >>> 1 ^^^ crcPoly).testBit 31 :=
      congrArg (fun z => z.testBit 31) h
    rw [Nat.testBit_xor, hta, htb, hpoly31] at h3
    exact absurd h3 (by decide)
  · rw [if_neg hpa, if_neg hpb] at h
    rw [hda, hdb] at h
    omega

/-- One CRC byte step is injective on 32-bit states. -/
theorem crcStep8_inj {a b : Nat} (ha : a < 2 ^ 32) (hb : b < 2 ^ 32)
    (h : crcStep8 a = crcStep8 b) : a = b := by
  rw [crcStep8, crcStep8] at h
  have p1a := crcStep_lt ha
  have p2a := crcStep_lt p1a
  have p3a := crcStep_lt p2a
  have p4a := crcStep_lt p3a
  have p5a := crcStep_lt p4a
  have p6a := crcStep_lt p5a
  have p7a := crcStep_lt p6a
  have p1b := crcStep_lt hb
  have p2b := crcStep_lt p1b
  have p3b := crcStep_lt p2b
  have p4b := crcStep_lt p3b
  have p5b := crcStep_lt p4b
  have p6b := crcStep_lt p5b
  have p7b := crcStep_lt p6b
  exact crcStep_inj ha hb (crcStep_inj p1a p1b (crcStep_inj p2a p2b
    (crcStep_inj p3a p3b (crcStep_inj p4a p4b (crcStep_inj p5a p5b
      (crcStep_inj p6a p6b (crcStep_inj p7a p7b h)))))))

/-- Distinct 32-bit CRC states stay distinct under any byte suffix. -/
theorem crcFold_ne : ∀ (rest : List Nat) {s1 s2 : Nat}, s1 < 2 ^ 32 →
    s2 < 2 ^ 32 → s1 ≠ s2 → (∀ x ∈ rest, x < 256) →
    rest.foldl crcUpdate s1 ≠ rest.foldl crcUpdate s2
  | [], _, _, _, _, hne, _ => hne
  | c :: rest, s1, s2, h1, h2, hne, hb => by
    simp only [List.foldl_cons]
    have hc : c < 256 := hb c (by simp)
    have hx1 : s1 ^^^ c < 2 ^ 32 := Nat.xor_lt_two_pow h1 (by omega)
    have hx2 : s2 ^^^ c < 2 ^ 32 := Nat.xor_lt_two_pow h2 (by omega)
    refine crcFold_ne rest (crcStep8_lt hx1) (crcStep8_lt hx2) ?_
      (fun x hx => hb x (by simp [hx]))
    intro hequ
    rw [crcUpdate, crcUpdate] at hequ
    have h3 := crcStep8_inj hx1 hx2 hequ
    have h4 := congrArg (fun z => z ^^^ c) h3
    simp only [Nat.xor_assoc, Nat.xor_self, Nat.xor_zero] at h4
    exact hne h4

/-- Changing a single payload byte always changes the `crc32`. -/
theorem crc32_flip_ne {pre suf : List Nat} {x y : Nat}
    (hx : x < 256) (hy : y < 256) (hxy : x ≠ y)
    (hpre : ∀ a ∈ pre, a < 256) (hsuf : ∀ a ∈ suf, a < 256) :
    crc32 (pre ++ x :: suf) ≠ crc32 (pre ++ y :: suf) := by
  rw [crc32, crc32]
  intro h
  have h2 : (pre ++ x :: suf).foldl crcUpdate 0xFFFFFFFF
      = (pre ++ y :: suf).foldl crcUpdate 0xFFFFFFFF := by
    have h3 := congrArg (fun z => 0xFFFFFFFF ^^^ z) h
    simpa [← Nat.xor_assoc, Nat.xor_self] using h3
  rw [List.foldl_append, List.foldl_append, List.foldl_cons,
    List.foldl_cons] at h2
  have hslt : pre.foldl crcUpdate 0xFFFFFFFF < 2 ^ 32 :=
    crcFold_lt pre (by norm_num) hpre
  have hxne : crcUpdate (pre.foldl crcUpdate 0xFFFFFFFF) x
      ≠ crcUpdate (pre.foldl crcUpdate 0xFFFFFFFF) y := by
    intro hequ
    rw [crcUpdate, crcUpdate] at hequ
    have h3 := crcStep8_inj (Nat.xor_lt_two_pow hslt (by omega))
      (Nat.xor_lt_two_pow hslt (by omega)) hequ
    have h4 := congrArg
      (fun z => pre.foldl crcUpdate 0xFFFFFFFF ^^^ z) h3
    simp only [← Nat.xor_assoc, Nat.xor_self, Nat.zero_xor] at h4
    exact hxy h4
  exact crcFold_ne suf
    (crcStep8_lt (Nat.xor_lt_two_pow hslt (by omega)))
    (crcStep8_lt (Nat.xor_lt_two_pow hslt (by omega)))
    hxne hsuf h2

/-- Changing a single byte of an encoded `u32` changes its value. -/
theorem getUint32LE_set_ne {n k y : Nat} (hn : n < 2 ^ 32) (hk : k < 4)
    (hy : y < 256) (hne : y ≠ (putUint32LE n).getD k 0) :
    getUint32LE ((putUint32LE n).set k y) ≠ n := by
  have hd1 : n / 65536 = n / 256 / 256 := by omega
  have hd2 : n / 16777216 = n / 256 / 256 / 256 := by omega
  interval_cases k <;>
    (simp only [putUint32LE, List.getD_cons_zero, List.getD_cons_succ] at hne
     simp only [putUint32LE, List.set, getUint32LE, List.getD_cons_zero,
       List.getD_cons_succ]
     omega)

/-- Parsing a framing whose stored checksum does not match its payload
fails with `InvalidCRC`. -/
theorem readChunk_badcrc {f bd : List Nat} {b o : Nat}
    {h0 h1 h2 h3 t : Nat} {P : List Nat}
    (hbd : bd.length = blockSize)
    (hag : ∀ j, b * blockSize + j < f.length → j < blockSize →
      bd.getD j 0 = f.getD (b * blockSize + j) 0)
    (hsl : sliceEq f (b * blockSize + o)
      ([h0, h1, h2, h3] ++ putUint16LE P.length ++ [t] ++ P))
    (hfit : o + chunkHeaderSize + P.length ≤ blockSize)
    (hne : crc32 P ≠ h0 + 256 * h1 + 65536 * h2 + 16777216 * h3) :
    readChunk (bd.drop o) = .error .invalidCRC := by
  obtain ⟨hslen, hget⟩ := hsl
  have hB : blockSize = 32768 := rfl
  have hH : chunkHeaderSize = 7 := rfl
  have hXlen : ([h0, h1, h2, h3] ++ putUint16LE P.length ++ [t] ++ P).length
      = chunkHeaderSize + P.length := by
    simp [putUint16LE, chunkHeaderSize]
    omega
  rw [hXlen] at hslen
  have hbyte : ∀ i, i < chunkHeaderSize + P.length →
      bd.getD (o + i) 0
        = ([h0, h1, h2, h3] ++ putUint16LE P.length ++ [t] ++ P).getD i 0 := by
    intro i hi
    rw [hag (o + i) (by omega) (by omega), ← Nat.add_assoc]
    exact hget i (by rw [hXlen]; omega)
  have hex : ([h0, h1, h2, h3] ++ putUint16LE P.length ++ [t] ++ P)
      = h0 :: h1 :: h2 :: h3 :: P.length % 256 :: P.length / 256 % 256 ::
        t :: P := by
    simp [putUint16LE]
  have hdlen : (bd.drop o).length = blockSize - o := by
    simp [hbd]
  have hcrc : getUint32LE (bd.drop o)
      = h0 + 256 * h1 + 65536 * h2 + 16777216 * h3 := by
    have hb0 := hbyte 0 (by omega)
    rw [Nat.add_zero] at hb0
    simp only [getUint32LE, getD_drop, Nat.add_zero]
    rw [hb0, hbyte 1 (by omega), hbyte 2 (by omega), hbyte 3 (by omega), hex]
    simp
  have hlen16 : getUint16LE ((bd.drop o).drop 4) = P.length := by
    have he1 : getUint16LE ((bd.drop o).drop 4)
        = getUint16LE (putUint16LE P.length) := by
      simp only [getUint16LE, getD_drop, Nat.add_zero, Nat.reduceAdd]
      rw [hbyte 4 (by omega), hbyte 5 (by omega), hex]
      simp [putUint16LE]
    rw [he1, getUint16LE_putUint16LE _ (by omega)]
  have hdata : ((bd.drop o).drop chunkHeaderSize).take P.length = P := by
    have hlens : (((bd.drop o).drop chunkHeaderSize).take P.length).length
        = P.length := by
      simp only [List.length_take, List.length_drop, hbd]
      omega
    refine List.ext_getElem hlens ?_
    intro i hi1 hi2
    have hgd : (((bd.drop o).drop chunkHeaderSize).take P.length).getD i 0
        = P.getD i 0 := by
      rw [getD_take _ _ (by rw [hlens] at hi1; exact hi1), getD_drop, getD_drop]
      have h3 := hbyte (chunkHeaderSize + i) (by rw [hlens] at hi1; omega)
      rw [h3, hex, hH]
      have h4 : (7 : Nat) + i = i + 1 + 1 + 1 + 1 + 1 + 1 + 1 := by omega
      rw [h4]
      simp only [List.getD_cons_succ]
    rw [← List.getD_eq_getElem _ 0 hi1, ← List.getD_eq_getElem _ 0 hi2]
    exact hgd
  simp only [readChunk]
  rw [hdlen, hlen16, hdata, hcrc]
  rw [if_neg (show ¬ blockSize - o < chunkHeaderSize by omega),
    if_neg (show ¬ blockSize - o < P.length + chunkHeaderSize by omega),
    if_neg hne]

/-- One read-loop step whose chunk parse fails propagates the error. -/
theorem readLoop_err_step {s s' : Segment} {b o : Nat} {bd : List Nat}
    {e : WErr} (entry : List Nat)
    (hrb : s.readBlock b = (.ok bd, s')) (ho : ¬ bd.length ≤ o)
    (hchk : readChunk (bd.drop o) = .error e) :
    ∀ fuel, 1 ≤ fuel → s.readLoop b o entry fuel = (.error e, s')
  | 0, h => absurd h (by omega)
  | fuel + 1, _ => by
    simp only [Segment.readLoop]
    rw [hrb]
    dsimp only
    rw [if_neg ho, hchk]

/-- C6 (amended): flipping a single byte of a stored chunk's payload or
of its 4-byte CRC field makes `Read` at that chunk's position fail with
`InvalidCRC` — provided the read actually fetches the block from disk,
i.e. the single-slot cache does not hold that block (hypothesis
`s.cachedId ≠ some b`; `c6_counterexample` shows the claim fails
without it): (1) whenever the on-disk framing at the position carries
a checksum field that does not match its payload, a cache-missing
`Read` returns `InvalidCRC`; (2) changing one payload byte always
changes the payload's `crc32`; (3) changing one byte of the
little-endian CRC field always changes the stored checksum value. -/
theorem c6_crc_flip :
    (∀ (s : Segment) (F0 F1 : List Nat) (b o h0 h1 h2 h3 t : Nat)
        (P : List Nat),
      s.closed = false → s.cachedData.length = blockSize →
      s.cachedId ≠ some b →
      F0.length = b * blockSize + o →
      o + chunkHeaderSize + P.length ≤ blockSize →
      s.file = F0 ++ ([h0, h1, h2, h3] ++ putUint16LE P.length ++ [t] ++ P)
        ++ F1 →
      crc32 P ≠ h0 + 256 * h1 + 65536 * h2 + 16777216 * h3 →
      ∀ sid, (s.Read ⟨sid, b, o⟩).1 = .error .invalidCRC) ∧
    (∀ (pre suf : List Nat) (x y : Nat), x < 256 → y < 256 → x ≠ y →
      (∀ a ∈ pre, a < 256) → (∀ a ∈ suf, a < 256) →
      crc32 (pre ++ y :: suf) ≠ crc32 (pre ++ x :: suf)) ∧
    (∀ (n k y : Nat), n < 2 ^ 32 → k < 4 → y < 256 →
      y ≠ (putUint32LE n).getD k 0 →
      getUint32LE ((putUint32LE n).set k y) ≠ n) := by
  refine ⟨?_, ?_, ?_⟩
  · intro s F0 F1 b o h0 h1 h2 h3 t P hcl hcd hmiss hF0 hfit hfile hne sid
    have hB : blockSize = 32768 := rfl
    have hH : chunkHeaderSize = 7 := rfl
    have hflen : s.file.length
        = F0.length + (chunkHeaderSize + P.length) + F1.length := by
      rw [hfile]
      simp [putUint16LE, chunkHeaderSize]
      omega
    have hin : b * blockSize < s.file.length := by omega
    obtain ⟨bd, hrb, hbdlen, hag⟩ := readBlock_found b hcl hmiss hin hcd
    have hsl : sliceEq s.file (b * blockSize + o)
        ([h0, h1, h2, h3] ++ putUint16LE P.length ++ [t] ++ P) := by
      rw [hfile, ← hF0]
      exact sliceEq_here F1
    have hchk := readChunk_badcrc hbdlen hag hsl hfit hne
    have hh := readLoop_err_step [] hrb (by omega) hchk
      (s.file.length + blockSize + 2) (by omega)
    rw [Segment.Read]
    show (s.readLoop b o [] (s.file.length + blockSize + 2)).1
      = .error .invalidCRC
    rw [hh]
  · intro pre suf x y hx hy hxy hpre hsuf
    exact crc32_flip_ne hy hx (Ne.symm hxy) hpre hsuf
  · intro n k y hn hk hy hne
    exact getUint32LE_set_ne hn hk hy hne

/-- C6 witness: reading the tampered image yields `InvalidCRC`. -/
theorem c6_witness : (c6seg.Read ⟨0, 0, 0⟩).1 = .error .invalidCRC :=
  c6_crc_flip.1 c6seg [] [] 0 0 0 0 0 0 0 [1] rfl
    (by simp [c6seg]) (by simp [c6seg]) (by simp) (by decide)
    (by simp [c6seg]) (by decide) 0

/-- C6 counterexample: the claimed `InvalidCRC` does not hold when the
block is in the read cache.  Write the entry `[1]` on a fresh segment,
sync, and read it once, reaching `cSeg3`, whose cache slot now holds
block 0.  Flip the single on-disk payload byte from `1` to `2` (state
`c6tampered`: same state, only the file changed, so the stored CRC no
longer matches the disk payload).  A subsequent `Read` at the entry's
position is served from the stale cached snapshot, never touches the
file, and returns the original entry `[1]` — not `InvalidCRC`. -/
theorem c6_counterexample :
    (NewSegment 0 []).Write [1] = .ok (some ⟨0, 0, 0⟩, cSeg1) ∧
    cSeg1.Sync = .ok cSeg2 ∧
    cSeg2.Read ⟨0, 0, 0⟩ = (.ok [1], cSeg3) ∧
    cSeg3.file
      = putUint32LE (crc32 [1]) ++ putUint16LE 1 ++ [kFullType] ++ [1] ∧
    c6tampered = { cSeg3 with
      file := putUint32LE (crc32 [1]) ++ putUint16LE 1 ++ [kFullType] ++ [2] } ∧
    (c6tampered.Read ⟨0, 0, 0⟩).1 = .ok [1] ∧
    (c6tampered.Read ⟨0, 0, 0⟩).1 ≠ .error .invalidCRC := by
  have hB : blockSize = 32768 := rfl
  have hbd0len : cBd0.length = blockSize := by
    rw [cBd0, List.length_append, List.length_replicate]
    have h1 : cChunk1.length = 8 := by
      rw [cChunk1, chunkBytes_length]
      rfl
    rw [h1]
    omega
  have hchk : readChunk (cBd0.drop 0) = .ok ⟨[1], kFullType⟩ := by
    refine readChunk_spec (f := cBd0) (b := 0) (o := 0)
      (c := ⟨[1], kFullType⟩) hbd0len
      (by intro j h1 h2; rw [Nat.zero_mul, Nat.zero_add]) ?_ (by decide)
      (by decide)
    show sliceEq cBd0 (0 * blockSize + 0) (chunkBytes ⟨[1], kFullType⟩)
    exact sliceEq_here (f := []) (List.replicate (blockSize - 8) 0)
  have hrd1 : cSeg2.Read ⟨0, 0, 0⟩ = (.ok [1], cSeg3) := by
    have hrb : cSeg2.readBlock 0 = (.ok cBd0, cSeg3) := rfl
    have hh := readLoop_full_step hrb (by omega) hchk (by decide) rfl
      (cSeg2.file.length + blockSize + 2) (by omega)
    rw [Segment.Read]
    exact hh
  have hrdT : c6tampered.Read ⟨0, 0, 0⟩ = (.ok [1], c6tampered) := by
    have hrb : c6tampered.readBlock 0 = (.ok cBd0, c6tampered) := rfl
    have hh := readLoop_full_step hrb (by omega) hchk (by decide) rfl
      (c6tampered.file.length + blockSize + 2) (by omega)
    rw [Segment.Read]
    exact hh
  refine ⟨rfl, rfl, hrd1, rfl, rfl, ?_, ?_⟩
  · rw [hrdT]
  · rw [hrdT]
    simp

end Wal
